import Mathlib

/-!
Verification of the DSAR redaction engine (src/redact.js "REDACTION V2",
src/redact-ai.js) against its design specification.

The JavaScript sources are shallowly embedded: pure string/list logic is
translated directly; the regex machinery is either implemented concretely
(reply-thread separators, whose first-match indices are what the code uses)
or abstracted by match environments supplying the strings the regexes
produced, with the per-match callback logic (the redaction gates) translated
exactly.  Strings in scope are ASCII, so JS UTF-16 indices, toLowerCase and
trim coincide with the character-list operations used here.
-/

namespace Dsarify

/-! ## String primitives (ASCII fragments of the JS string API) -/

/-- ASCII rendering of JS String.prototype.toLowerCase. -/
def lowerStr (s : String) : String := ⟨s.data.map Char.toLower⟩

/-- Whitespace test backing the JS trim model. -/
def isWS (c : Char) : Bool := c = ' ' || c = '\t' || c = '\n' || c = '\r'

/-- ASCII rendering of JS String.prototype.trim. -/
def trimStr (s : String) : String :=
  ⟨((s.data.dropWhile isWS).reverse.dropWhile isWS).reverse⟩

/-- Does the character list start with the given pattern? -/
def startsWithChars (pat l : List Char) : Bool := List.isPrefixOf pat l

/-- Occurrence of a pattern anywhere in a character list. -/
def containsSubAux (pat : List Char) : List Char → Bool
  | [] => startsWithChars pat []
  | c :: rest => startsWithChars pat (c :: rest) || containsSubAux pat rest

/-- JS String.prototype.includes - substring containment. -/
def containsSub (s pat : String) : Bool := containsSubAux pat.data s.data

/-- Split a string at every ';' or ',' character (JS split(/[;,]/)). -/
def splitSepChars (cur : List Char) (out : List (List Char)) :
    List Char → List (List Char)
  | [] => (cur.reverse :: out).reverse
  | c :: rest =>
    if c = ';' || c = ',' then splitSepChars [] (cur.reverse :: out) rest
    else splitSepChars (c :: cur) out rest

/-- Recipient-entry splitting: split on ';'/',', trim each part and drop
empties, exactly as the source does before classifying entries. -/
def splitParts (s : String) : List String :=
  (((splitSepChars [] [] s.data).map (fun l => trimStr ⟨l⟩))).filter
    (fun p => p ≠ "")

/-! ## Data subject configuration (redact.js, DATA_SUBJECT) -/

def dsName : String := "John Gaskell"

def dsEmail : String := "john@freightlink.co.uk"

def nameVariations : List String :=
  ["john gaskell", "john", "gaskell", "j. gaskell", "j gaskell",
   "mr gaskell", "mr. gaskell"]

def emailVariations : List String := ["john@freightlink.co.uk"]

/-- isDataSubject (redact.js V2): exact (trimmed, lowercased) match against
the email variations or name variations, or containment of the canonical
full name. -/
def isDataSubject (text : String) : Bool :=
  if text = "" then false
  else
    let lower := trimStr (lowerStr text)
    emailVariations.any (fun e => lower = lowerStr e)
    || nameVariations.any (fun n => lower = lowerStr n)
    || containsSub lower "john gaskell"

/-- containsDataSubject (redact.js V2): any variation occurring anywhere in
the (lowercased, untrimmed) string. -/
def containsDataSubject (text : String) : Bool :=
  if text = "" then false
  else
    let lower := lowerStr text
    nameVariations.any (fun n => containsSub lower (lowerStr n))
    || emailVariations.any (fun e => containsSub lower (lowerStr e))

/-! ## Common-word deny list (redact.js V2, COMMON_WORDS) -/

def COMMON_WORDS : List String :=
  ["hi", "hello", "dear", "morning", "afternoon", "evening", "regards",
   "thanks", "thank", "cheers", "best", "kind", "sincerely", "yours",
   "manager", "director", "head", "team", "department", "customer",
   "service", "services", "sales", "support", "logistics", "operations",
   "booking", "bookings", "account", "accounts", "export", "import",
   "freight", "delivery", "collection", "order", "orders",
   "please", "note", "attached", "following", "regarding", "subject",
   "update", "confirmation", "enquiry", "query", "request", "today",
   "tomorrow", "monday", "tuesday", "wednesday", "thursday", "friday",
   "saturday", "sunday", "january", "february", "march", "april", "may",
   "june", "july", "august", "september", "october", "november", "december",
   "email", "sent", "received", "forwarded", "replied", "website", "link",
   "click", "login", "password",
   "uk", "ireland", "dublin", "london", "manchester", "leeds", "preston",
   "birmingham", "ashbourne", "cork", "belfast",
   "ltd", "limited", "inc", "incorporated", "plc", "llc", "corp",
   "corporation",
   "the", "and", "for", "with", "from", "this", "that", "here", "there",
   "will", "would", "could", "should", "have", "has", "been"]

/-! ## Redaction items -/

/-- One redaction action, as pushed onto the per-message audit list.  The
field and source components default to "" for stages that do not set them. -/
structure Item where
  original : String
  type : String
  replacement : String
  field : String
  source : String
deriving Repr, DecidableEq

/-! ## Stage 1: structured fields (redactSender, redactRecipients) -/

structure Sender where
  name : String
  email : String
deriving Repr, DecidableEq

/-- redactSender: deny-by-default - unless the sender matches the data
subject, both name and email become the placeholder. -/
def redactSender (sender : Sender) : Sender × List Item :=
  let isDS := isDataSubject sender.name || isDataSubject sender.email
  if isDS then (sender, [])
  else
    let redactName := sender.name ≠ "" && trimStr sender.name ≠ ""
    let redactEmail := sender.email ≠ "" && trimStr sender.email ≠ ""
    let result : Sender :=
      ⟨if redactName then "[REDACTED]" else sender.name,
       if redactEmail then "[REDACTED]" else sender.email⟩
    let items :=
      (if redactName then
        [(⟨sender.name, "sender_name", "[REDACTED]", "", ""⟩ : Item)] else [])
      ++
      (if redactEmail then
        [(⟨sender.email, "sender_email", "[REDACTED]", "", ""⟩ : Item)] else [])
    (result, items)

structure Recipients where
  toField : String
  ccField : String
  bccField : String
deriving Repr, DecidableEq

/-- The normalized form kept for an entry that matches/contains the data
subject (redactRecipients, the branch keeping the data subject). -/
def classifyDSPart (part : String) : String :=
  if containsSub (lowerStr part) "john gaskell" then "John Gaskell"
  else if containsSub (lowerStr part) "john@freightlink" then dsEmail
  else dsName

/-- Per-entry action of redactRecipients: keep/normalize a data-subject
entry, replace any other entry by the placeholder (emitting an item). -/
def recipientStep (fieldName part : String) : String × List Item :=
  if isDataSubject part || containsDataSubject part then
    (classifyDSPart part, [])
  else
    ("[REDACTED]",
     [⟨part, "recipient_" ++ fieldName, "[REDACTED]", "", ""⟩])

/-- The deduplication loop of redactRecipients: skip an entry exactly when
it is "[REDACTED]" and the previously kept entry is also "[REDACTED]"
(reversed-accumulator rendering of the source's push loop). -/
def dedupeRedacted (acc : List String) : List String → List String
  | [] => acc.reverse
  | p :: rest =>
    if p = "[REDACTED]" && acc.head? = some "[REDACTED]" then
      dedupeRedacted acc rest
    else dedupeRedacted (p :: acc) rest

/-- Entry list a recipient field is rebuilt from (before joining). -/
def redactRecipientEntries (fieldName value : String) : List String :=
  dedupeRedacted []
    ((splitParts value).map (fun p => (recipientStep fieldName p).1))

/-- Items emitted while walking a recipient field's entries. -/
def recipientItemsOf (fieldName value : String) : List Item :=
  ((splitParts value).map (fun p => (recipientStep fieldName p).2)).flatten

/-- JS Array.prototype.join("; "). -/
def joinEntries : List String → String
  | [] => ""
  | [e] => e
  | e :: rest => e ++ "; " ++ joinEntries rest

/-- One field of redactRecipients: empty/whitespace-only fields are left
untouched, otherwise the field is split, classified, deduplicated and
re-joined. -/
def redactRecipientField (fieldName value : String) : String × List Item :=
  if value = "" || trimStr value = "" then (value, [])
  else
    (joinEntries (redactRecipientEntries fieldName value),
     recipientItemsOf fieldName value)

/-- redactRecipients: apply the per-field transformation to to, cc, bcc. -/
def redactRecipients (r : Recipients) : Recipients × List Item :=
  let t := redactRecipientField "to" r.toField
  let c := redactRecipientField "cc" r.ccField
  let b := redactRecipientField "bcc" r.bccField
  (⟨t.1, c.1, b.1⟩, t.2 ++ c.2 ++ b.2)

/-! ## Stage 2: deterministic pattern redaction (redactPatterns)

The regexes of the PATTERNS table are abstracted by a match environment
giving, for each pattern slot, the list of match strings its regex produced;
the per-match callback of applyPattern (the data-subject email exemption,
the freightlink URL exemption and the double-redaction guard) is translated
exactly, as is the order in which the slots are applied. -/

/-- The keys of the PATTERNS table in redact.js V2. -/
inductive PatKey
  | email | phone | url | reference | currency | companyReg | vatNumber
  | fullAddress | postcode | eircode | address
deriving Repr, DecidableEq

/-- A match environment: for a pattern key and the index of the regex inside
that key's array, the match strings the regex produced. -/
def PatEnv : Type := PatKey → Nat → List String

/-- The applyPattern callback of redactPatterns: each match is kept
unchanged (no item) when it is the data subject's email (email patterns),
when it is a freightlink URL (url pattern), or when it already contains the
placeholder marker; otherwise it is substituted and an item is emitted. -/
def applyPatternItems (ty repl : String) (ms : List String) :
    List Item :=
  ms.filterMap (fun m =>
    if ty = "email" && lowerStr m = lowerStr dsEmail then none
    else if ty = "url" && containsSub (lowerStr m) "freightlink" then none
    else if containsSub m "[REDACTED" then none
    else some ⟨m, ty, repl, "", ""⟩)

/-- The items redactPatterns emits, in the exact order the source applies
its pattern slots (full addresses, street addresses, postcodes, Eircodes,
emails, phones, references, currency, company registration, VAT, URLs). -/
def redactPatternsItems (env : PatEnv) : List Item :=
  applyPatternItems "address" "[REDACTED ADDRESS]" (env .fullAddress 0)
  ++ applyPatternItems "address" "[REDACTED ADDRESS]" (env .fullAddress 1)
  ++ applyPatternItems "address" "[REDACTED ADDRESS]" (env .fullAddress 2)
  ++ applyPatternItems "address" "[REDACTED ADDRESS]" (env .fullAddress 3)
  ++ applyPatternItems "address" "[REDACTED ADDRESS]" (env .address 0)
  ++ applyPatternItems "postcode" "[REDACTED]" (env .postcode 0)
  ++ applyPatternItems "eircode" "[REDACTED]" (env .eircode 0)
  ++ applyPatternItems "email" "[REDACTED EMAIL]" (env .email 0)
  ++ applyPatternItems "phone" "[REDACTED PHONE]" (env .phone 0)
  ++ applyPatternItems "phone" "[REDACTED PHONE]" (env .phone 1)
  ++ applyPatternItems "phone" "[REDACTED PHONE]" (env .phone 2)
  ++ applyPatternItems "reference" "[REDACTED REF]" (env .reference 0)
  ++ applyPatternItems "reference" "[REDACTED REF]" (env .reference 1)
  ++ applyPatternItems "reference" "[REDACTED REF]" (env .reference 2)
  ++ applyPatternItems "reference" "[REDACTED REF]" (env .reference 3)
  ++ applyPatternItems "currency" "[REDACTED AMOUNT]" (env .currency 0)
  ++ applyPatternItems "currency" "[REDACTED AMOUNT]" (env .currency 1)
  ++ applyPatternItems "company_reg" "[REDACTED REG]" (env .companyReg 0)
  ++ applyPatternItems "vat" "[REDACTED VAT]" (env .vatNumber 0)
  ++ applyPatternItems "url" "[REDACTED URL]" (env .url 0)

/-- One application step in the specification's ordered category list. -/
structure SpecStep where
  key : PatKey
  idx : Nat
  type : String
  replacement : String
deriving Repr, DecidableEq

/-- The order of pattern categories as stated by the specification: full
postal and unit/building addresses first, then bare street addresses, then
standalone postcodes and Eircodes, then emails, then phones, then
reference/order/invoice numbers, then currency amounts, then company
registration and VAT numbers, and generic URLs last. -/
def specPatternOrder : List SpecStep :=
  [⟨.fullAddress, 0, "address", "[REDACTED ADDRESS]"⟩,
   ⟨.fullAddress, 1, "address", "[REDACTED ADDRESS]"⟩,
   ⟨.fullAddress, 2, "address", "[REDACTED ADDRESS]"⟩,
   ⟨.fullAddress, 3, "address", "[REDACTED ADDRESS]"⟩,
   ⟨.address, 0, "address", "[REDACTED ADDRESS]"⟩,
   ⟨.postcode, 0, "postcode", "[REDACTED]"⟩,
   ⟨.eircode, 0, "eircode", "[REDACTED]"⟩,
   ⟨.email, 0, "email", "[REDACTED EMAIL]"⟩,
   ⟨.phone, 0, "phone", "[REDACTED PHONE]"⟩,
   ⟨.phone, 1, "phone", "[REDACTED PHONE]"⟩,
   ⟨.phone, 2, "phone", "[REDACTED PHONE]"⟩,
   ⟨.reference, 0, "reference", "[REDACTED REF]"⟩,
   ⟨.reference, 1, "reference", "[REDACTED REF]"⟩,
   ⟨.reference, 2, "reference", "[REDACTED REF]"⟩,
   ⟨.reference, 3, "reference", "[REDACTED REF]"⟩,
   ⟨.currency, 0, "currency", "[REDACTED AMOUNT]"⟩,
   ⟨.currency, 1, "currency", "[REDACTED AMOUNT]"⟩,
   ⟨.companyReg, 0, "company_reg", "[REDACTED REG]"⟩,
   ⟨.vatNumber, 0, "vat", "[REDACTED VAT]"⟩,
   ⟨.url, 0, "url", "[REDACTED URL]"⟩]

/-- The items produced when the slots are applied in the specification's
order. -/
def redactPatternsSpecItems (env : PatEnv) : List Item :=
  (specPatternOrder.map
    (fun st => applyPatternItems st.type st.replacement (env st.key st.idx))).flatten

/-! ## Stage 4: paranoid pass (paranoidPass)

Each sub-pattern of the paranoid pass is abstracted by the list of capture
tuples its regex produced; the replacement callbacks - the gates deciding
whether a capture is substituted - are translated exactly. -/

/-- Word characters for the JS word-boundary test. -/
def isWordChar (c : Char) : Bool := c.isAlphanum || c = '_'

/-- Occurrence of a word with JS-style boundaries on both sides. -/
def hasWordAux (w : List Char) (prev : Option Char) : List Char → Bool
  | [] => false
  | c :: rest =>
    (startsWithChars w (c :: rest)
      && (match prev with
          | none => true
          | some p => !(isWordChar p))
      && (match (c :: rest).drop w.length with
          | [] => true
          | d :: _ => !(isWordChar d)))
    || hasWordAux w (some c) rest

def companySuffixWords : List String :=
  ["ltd", "limited", "inc", "incorporated", "corp", "corporation", "llc",
   "llp", "plc", "co"]

/-- The company-suffix test of the standalone-name sub-pattern. -/
def hasCompanySuffix (name : String) : Bool :=
  companySuffixWords.any (fun w => hasWordAux w.data none (lowerStr name).data)

/-- The punctuation check of the standalone-name sub-pattern, applied to the
whole match text. -/
def endsWithPunctSpaces (s : String) : Bool :=
  match s.data.reverse.dropWhile (fun c => isWS c) with
  | [] => false
  | c :: _ => c = '.' || c = '!' || c = '?'

def dropWS (l : List Char) : List Char := l.dropWhile (fun c => isWS c)

def jobTitleWords : List String :=
  ["head", "manager", "director", "executive", "officer", "coordinator",
   "specialist", "assistant", "lead", "senior", "junior"]

/-- Job-title context test on the 50 characters after a line-start name. -/
def startsJobTitle (after : String) : Bool :=
  let t := dropWS (lowerStr after).data
  jobTitleWords.any (fun w => startsWithChars w.data t)

/-- The "Word of Word" context test on the characters after a line-start
name. -/
def likelyOfForm (after : String) : Bool :=
  match dropWS after.data with
  | c :: rest =>
    c.isAlpha &&
    (let letters := rest.takeWhile (fun d => d.isAlpha)
     decide (letters.length ≥ 1) &&
     (let r1 := rest.drop letters.length
      let ws1 := r1.takeWhile (fun d => isWS d)
      decide (ws1.length ≥ 1) &&
      (match r1.drop ws1.length with
       | o :: f :: r2 =>
         (o.toLower = 'o' && f.toLower = 'f') &&
         (let ws2 := r2.takeWhile (fun d => isWS d)
          decide (ws2.length ≥ 1) &&
          (match r2.drop ws2.length with
           | d :: _ => d.isAlpha
           | [] => false))
       | _ => false)))
  | [] => false

/-- The email-start context test on the characters after a line-start
name. -/
def likelyEmailForm (after : String) : Bool :=
  match dropWS after.data with
  | c :: rest =>
    c.isAlpha &&
    (let letters := rest.takeWhile (fun d => d.isAlpha)
     decide (letters.length ≥ 1) &&
     (match rest.drop letters.length with
      | d :: _ => d = '@'
      | [] => false))
  | [] => false

/-- The phone-start context test on the characters after a line-start
name. -/
def likelyPhoneForm (after : String) : Bool :=
  match dropWS after.data with
  | '+' :: d :: _ => d.isDigit
  | d :: _ => d.isDigit
  | [] => false

/-- The isLikelyName context check of the line-start sub-pattern. -/
def isLikelyName (after : String) : Bool :=
  startsJobTitle after || likelyOfForm after || likelyEmailForm after
  || likelyPhoneForm after

/-- Captures produced by the seven paranoid sub-pattern regexes on a text:
greeting (greeting word, name), signature (closing word, name),
parenthesized name, titled (title, name), labeled (label, name), standalone
(whole match, name) and line-start (name, following 50 characters). -/
structure ParanoidEnv where
  greeting : List (String × String)
  signature : List (String × String)
  parens : List String
  titled : List (String × String)
  labeled : List (String × String)
  standalone : List (String × String)
  lineStart : List (String × String)

/-- Greeting-name callback gate. -/
def greetingItem (nm : String) : Option (String × Item) :=
  if isDataSubject nm || COMMON_WORDS.contains (lowerStr nm) then none
  else some (nm, ⟨nm, "greeting_name", "[REDACTED NAME]", "", ""⟩)

/-- Signature-name callback gate. -/
def signatureItem (nm : String) : Option (String × Item) :=
  if isDataSubject nm || COMMON_WORDS.contains (lowerStr nm) then none
  else if containsSub nm "[REDACTED" then none
  else some (nm, ⟨nm, "signature_name", "[REDACTED NAME]", "", ""⟩)

/-- Parenthesized-name callback gate. -/
def parensItem (nm : String) : Option (String × Item) :=
  if isDataSubject nm || COMMON_WORDS.contains (lowerStr nm) then none
  else some (nm, ⟨nm, "parentheses_name", "[REDACTED NAME]", "", ""⟩)

/-- Titled-name callback gate (checks only the data-subject matcher). -/
def titledItem (title nm : String) : Option (String × Item) :=
  if isDataSubject nm then none
  else some (nm, ⟨title ++ " " ++ nm, "titled_name",
                  title ++ " [REDACTED NAME]", "", ""⟩)

/-- Labeled-name callback gate (checks the data-subject matcher and the
already-redacted marker, but not the deny list). -/
def labeledItem (nm : String) : Option (String × Item) :=
  if isDataSubject nm then none
  else if containsSub nm "[REDACTED" then none
  else some (nm, ⟨nm, "labeled_name", "[REDACTED NAME]", "", ""⟩)

/-- Standalone-line callback gate. -/
def standaloneItem (matchText nm : String) : Option (String × Item) :=
  if isDataSubject nm then none
  else if COMMON_WORDS.contains (lowerStr nm) then none
  else if containsSub nm "[REDACTED" then none
  else if endsWithPunctSpaces matchText then none
  else if hasCompanySuffix nm then none
  else some (nm, ⟨nm, "standalone_name", "[REDACTED NAME]", "", ""⟩)

/-- Line-start-name callback gate. -/
def lineStartItem (nm after : String) : Option (String × Item) :=
  if isDataSubject nm then none
  else if COMMON_WORDS.contains (lowerStr nm) then none
  else if containsSub nm "[REDACTED" then none
  else if isLikelyName after then
    some (nm, ⟨nm, "signature_name", "[REDACTED NAME]", "", ""⟩)
  else none

/-- The substitutions of the paranoid pass, each paired with the captured
name its gates inspected, in the order the source applies its
sub-patterns. -/
def paranoidItemsWithNames (env : ParanoidEnv) : List (String × Item) :=
  env.greeting.filterMap (fun p => greetingItem p.2)
  ++ env.signature.filterMap (fun p => signatureItem p.2)
  ++ env.parens.filterMap (fun nm => parensItem nm)
  ++ env.titled.filterMap (fun p => titledItem p.1 p.2)
  ++ env.labeled.filterMap (fun p => labeledItem p.2)
  ++ env.standalone.filterMap (fun p => standaloneItem p.1 p.2)
  ++ env.lineStart.filterMap (fun p => lineStartItem p.1 p.2)

/-- The items the paranoid pass emits. -/
def paranoidItems (env : ParanoidEnv) : List Item :=
  (paranoidItemsWithNames env).map Prod.snd

/-! ## Stage 3: AI redaction application (applyAIRedactions, redact.js V2)

The textual substitution is abstracted (testOccurs models regex.test on the
current text, replaceAll models the global case-insensitive replacement);
the per-item filters are translated exactly. -/

structure AIItem where
  text : String
  type : String
deriving Repr, DecidableEq

structure AISubstEnv where
  testOccurs : String → String → Bool
  replaceAll : String → String → String → String

/-- Stable descending insertion by text length, modelling the
sort((a, b) => b.text.length - a.text.length) call. -/
def insertDesc (x : AIItem) : List AIItem → List AIItem
  | [] => [x]
  | y :: rest =>
    if y.text.length > x.text.length then y :: insertDesc x rest
    else x :: y :: rest

def sortByLenDesc : List AIItem → List AIItem
  | [] => []
  | x :: rest => insertDesc x (sortByLenDesc rest)

/-- One step of applyAIRedactions: skip short, data-subject, common-word and
already-redacted items; otherwise substitute when the text matches. -/
def aiStep (tenv : AISubstEnv) (acc : String × List Item) (it : AIItem) :
    String × List Item :=
  if it.text = "" || it.text.length < 2 then acc
  else if isDataSubject it.text then acc
  else if COMMON_WORDS.contains (lowerStr it.text) then acc
  else if containsSub it.text "[REDACTED" then acc
  else
    let repl := if it.type = "company" then "[REDACTED COMPANY]"
                else "[REDACTED NAME]"
    if tenv.testOccurs acc.1 it.text then
      (tenv.replaceAll acc.1 it.text repl,
       acc.2 ++ [⟨it.text, it.type, repl, "", ""⟩])
    else acc

/-- applyAIRedactions: sort the AI items longest first and fold the
substitution step over them. -/
def applyAIRedactions (tenv : AISubstEnv) (text : String)
    (items : List AIItem) : String × List Item :=
  if text = "" || items = [] then (text, [])
  else (sortByLenDesc items).foldl (aiStep tenv) (text, [])

/-! ## Stage 0: reply-thread trimming (trimReplyThreads)

The seven separator regexes are implemented concretely: only the index of a
separator's first match matters to the source (it cuts the body there), so
each separator is rendered as a first-match-index search with the exact
matching semantics of its regex. -/

/-- The seven separator patterns, in the order of the source's array. -/
inductive Sep
  | dashes | unders | equals | outlook | wrote | onWrote | origMsg
deriving Repr, DecidableEq

def countLeading (p : Char → Bool) : List Char → Nat
  | [] => 0
  | c :: rest => if p c then countLeading p rest + 1 else 0

/-- Case-insensitive literal prefix (pattern given lowercased). -/
def ciPrefixAt : List Char → List Char → Bool
  | [], _ => true
  | _ :: _, [] => false
  | p :: ps, c :: cs => p = c.toLower && ciPrefixAt ps cs

/-- A horizontal-rule separator: newline, twenty or more copies of the rule
character, newline. -/
def ruleSepAt (ch : Char) (l : List Char) : Bool :=
  match l with
  | '\n' :: rest =>
    let n := countLeading (fun c => c = ch) rest
    decide (n ≥ 20) && ((rest.drop n).head? = some '\n')
  | _ => false

/-- Scan for "\nSent:" followed later by "\nTo:" (the lazy dot-all gaps of
the Outlook header-block separator). -/
def sentThenTo : List Char → Bool
  | [] => false
  | c :: rest =>
    (startsWithChars "\nSent:".data (c :: rest)
      && containsSubAux "\nTo:".data ((c :: rest).drop 6))
    || sentThenTo rest

/-- The Outlook-style header-block separator. -/
def outlookAt (l : List Char) : Bool :=
  startsWithChars "\nFrom:".data l && sentThenTo (l.drop 6)

/-- Scan for a case-insensitive "wrote:" with no intervening newline (the
lazy non-dot-all gap of the wrote-line separators). -/
def wroteScan : List Char → Bool
  | [] => false
  | c :: rest =>
    if ciPrefixAt "wrote:".data (c :: rest) then true
    else if c = '\n' then false
    else wroteScan rest

/-- The quoted-line separator: newline, '>', then "wrote:" on that line. -/
def wroteAt (l : List Char) : Bool :=
  match l with
  | '\n' :: '>' :: rest => wroteScan rest
  | _ => false

def sepClassChar (c : Char) : Bool := isWS c || c = '/' || c = '-'

/-- Tail of the "On <date> ... wrote:" separator after the date's word
part: a separator-class character, then two digits of the year, then
"wrote:" on that line. -/
def onWroteYear (l : List Char) : Bool :=
  match l with
  | a :: b :: rest => a.isDigit && b.isDigit && wroteScan rest
  | _ => false

/-- After the day digits: a separator-class character, a word-character
run, another separator-class character, then the year and "wrote:". -/
def onWroteSepPart (l : List Char) : Bool :=
  match l with
  | c :: rest =>
    sepClassChar c &&
    (let n := countLeading isWordChar rest
     decide (n ≥ 1) &&
     (match rest.drop n with
      | c2 :: rest2 => sepClassChar c2 && onWroteYear rest2
      | [] => false))
  | [] => false

/-- One or two day digits, then the rest of the date separator. -/
def onWroteDigits (l : List Char) : Bool :=
  match l with
  | d1 :: rest =>
    d1.isDigit &&
    (onWroteSepPart rest
     || (match rest with
         | d2 :: rest2 => d2.isDigit && onWroteSepPart rest2
         | [] => false))
  | [] => false

/-- The "On 15 July 2024 ... wrote:" separator. -/
def onWroteAt (l : List Char) : Bool :=
  match l with
  | '\n' :: c1 :: c2 :: rest =>
    c1.toLower = 'o' && c2.toLower = 'n' &&
    (let n := countLeading isWS rest
     decide (n ≥ 1) && onWroteDigits (rest.drop n))
  | _ => false

/-- The "--- Original Message ---" separator. -/
def origMsgAt (l : List Char) : Bool :=
  match l with
  | '\n' :: rest =>
    let n := countLeading (fun c => c = '-') rest
    decide (n ≥ 3) &&
    (let r1 := rest.drop n
     let m := countLeading isWS r1
     let r2 := r1.drop m
     ciPrefixAt "original message".data r2 &&
     (let r3 := r2.drop 16
      let k := countLeading isWS r3
      decide (countLeading (fun c => c = '-') (r3.drop k) ≥ 3)))
  | _ => false

/-- Does the separator's regex match starting at the head of the suffix? -/
def sepMatchAt : Sep → List Char → Bool
  | .dashes, l => ruleSepAt '-' l
  | .unders, l => ruleSepAt '_' l
  | .equals, l => ruleSepAt '=' l
  | .outlook, l => outlookAt l
  | .wrote, l => wroteAt l
  | .onWrote, l => onWroteAt l
  | .origMsg, l => origMsgAt l

def firstIdxAux (p : List Char → Bool) : List Char → Nat → Option Nat
  | [], i => if p [] then some i else none
  | c :: rest, i =>
    if p (c :: rest) then some i else firstIdxAux p rest (i + 1)

/-- Index of the first match of a separator (JS match().index). -/
def firstSepIdx (s : Sep) (l : List Char) : Option Nat :=
  firstIdxAux (sepMatchAt s) l 0

def separatorOrder : List Sep :=
  [.dashes, .unders, .equals, .outlook, .wrote, .onWrote, .origMsg]

/-- One iteration of the separator loop: cut at the separator's first match
when that match sits after character index 50. -/
def cutAtSep (t : String) (s : Sep) : String :=
  match firstSepIdx s t.data with
  | some i => if i > 50 then trimStr ⟨t.data.take i⟩ else t
  | none => t

/-- trimReplyThreads: fold the cut over the seven separators in order. -/
def trimReplyThreads (body : String) : String :=
  if body = "" then body
  else separatorOrder.foldl cutAtSep body

/-! ## Messages and processMessage -/

/-- A message as produced by the extraction step: the structured fields
plus the attachment fields that extraction attaches and processMessage
deletes (absence of a JS object key is modelled by none). -/
structure Msg where
  id : Int
  sender : Sender
  recipients : Recipients
  subject : String
  body : String
  date : String
  messageClass : String
  sourceFile : String
  attachments : Option (List String)
  hasAttachments : Option Bool
deriving Repr, DecidableEq

/-- The top-level keys of the JS message object. -/
def msgKeys (m : Msg) : List String :=
  ["id", "sender", "recipients", "subject", "body", "date", "messageClass",
   "sourceFile"]
  ++ (if m.attachments.isSome then ["attachments"] else [])
  ++ (if m.hasAttachments.isSome then ["hasAttachments"] else [])

/-- Free-text transforms of the pattern and paranoid stages; the item lists
carry the substitutions each application performed. -/
structure TextEnv where
  patterns : String → String × List Item
  paranoid : String → String × List Item

/-- The single audit item recorded when reply-thread trimming removed
characters. -/
def replyTrimItem (removed : Nat) : Item :=
  ⟨"[" ++ Nat.repr removed ++ " chars of reply thread removed]",
   "reply_trimmed", "", "body", ""⟩

/-- processMessage: trim reply threads, redact structured fields, run the
pattern stage on body and subject, run the paranoid pass on the body, and
delete the attachment fields. -/
def processMessage (env : TextEnv) (m : Msg) : Msg × List Item :=
  let step0 :=
    if m.body ≠ "" then
      let t := trimReplyThreads m.body
      (t, if t.length < m.body.length then
            [replyTrimItem (m.body.length - t.length)] else [])
    else (m.body, [])
  let body0 := step0.1
  let sres := redactSender m.sender
  let rres := redactRecipients m.recipients
  let bodyPat := if body0 ≠ "" then env.patterns body0 else (body0, [])
  let subjPat := if m.subject ≠ "" then env.patterns m.subject
                 else (m.subject, [])
  let bodyPar := if bodyPat.1 ≠ "" then env.paranoid bodyPat.1
                 else (bodyPat.1, [])
  ({ m with
      sender := sres.1
      recipients := rres.1
      body := bodyPar.1
      subject := subjPat.1
      attachments := none
      hasAttachments := none },
   step0.2 ++ sres.2 ++ rres.2
     ++ bodyPat.2.map (fun it => { it with field := "body" })
     ++ subjPat.2.map (fun it => { it with field := "subject" })
     ++ bodyPar.2.map (fun it => { it with field := "body" }))

/-! ## AI call with retries (callOpenAI, redact.js V2) -/

def MAX_RETRIES : Nat := 3

def RETRY_DELAY_MS : Nat := 2000

/-- One parsed result entry of the AI response. -/
structure AIResult where
  messageId : Int
  items : List AIItem
deriving Repr, DecidableEq

/-- callOpenAI: an attempt oracle gives the outcome of each attempt (none
is a thrown error).  Returns the list of sleep durations performed and the
parsed results; after exhausting the retries it returns no detections. -/
def callOpenAI (oracle : Nat → Option (List AIResult)) (retryCount : Nat) :
    List Nat × List AIResult :=
  match oracle retryCount with
  | some res => ([], res)
  | none =>
    if _h : retryCount < MAX_RETRIES then
      let r := callOpenAI oracle (retryCount + 1)
      (RETRY_DELAY_MS * (retryCount + 1) :: r.1, r.2)
    else ([], [])
termination_by MAX_RETRIES - retryCount
decreasing_by omega

/-! ## processBatch (redact.js V2) -/

/-- The aiResultsMap lookup: the map is built by iterating the results and
overwriting, skipping entries whose messageId is falsy, so the last entry
with the given (nonzero) id wins. -/
def lastAssocAI (results : List AIResult) (mid : Int) : List AIItem :=
  match (results.filter (fun r => r.messageId ≠ 0 && r.messageId = mid)).getLast? with
  | some r => r.items
  | none => []

/-- Merge new items into the first audit entry with the given id. -/
def updateFirstAudit : List (Int × List Item) → Int → List Item →
    List (Int × List Item)
  | [], _, _ => []
  | e :: rest, mid, items =>
    if e.1 = mid then (e.1, e.2 ++ items) :: rest
    else e :: updateFirstAudit rest mid items

/-- Push AI items into the batch audit: extend the existing entry for the
message if there is one, otherwise append a new entry. -/
def pushAuditMerge (audit : List (Int × List Item)) (mid : Int)
    (items : List Item) : List (Int × List Item) :=
  if audit.any (fun e => e.1 = mid) then updateFirstAudit audit mid items
  else audit ++ [(mid, items)]

/-- The per-message AI application step of processBatch. -/
def aiApplyStep (tenv : AISubstEnv) (aiResults : List AIResult)
    (acc : List Msg × List (Int × List Item)) (m : Msg) :
    List Msg × List (Int × List Item) :=
  let aiItems := lastAssocAI aiResults m.id
  let bodyR := if aiItems ≠ [] && m.body ≠ "" then
      applyAIRedactions tenv m.body aiItems
    else (m.body, [])
  let tagged := bodyR.2.map (fun it =>
    { it with field := "body", source := "ai" })
  let audit2 := if bodyR.2 ≠ [] then pushAuditMerge acc.2 m.id tagged
                else acc.2
  let subj := if aiItems ≠ [] && m.subject ≠ "" then
      (applyAIRedactions tenv m.subject aiItems).1
    else m.subject
  (acc.1 ++ [{ m with body := bodyR.1, subject := subj }], audit2)

/-- processBatch: deterministic processing of every message first, then one
AI call for the batch, then application of the AI detections. -/
def processBatch (env : TextEnv) (tenv : AISubstEnv)
    (oracle : Nat → Option (List AIResult)) (msgs : List Msg) :
    List Msg × List (Int × List Item) :=
  let processed := msgs.map (fun m => (m.id, processMessage env m))
  let detAudit := processed.filterMap
    (fun pr => if pr.2.2 = [] then none else some (pr.1, pr.2.2))
  let aiResults := (callOpenAI oracle 0).2
  (processed.map (fun pr => pr.2.1)).foldl (aiApplyStep tenv aiResults)
    ([], detAudit)

/-- The audit produced by the deterministic stages alone. -/
def detOnlyAudit (env : TextEnv) (msgs : List Msg) :
    List (Int × List Item) :=
  msgs.filterMap (fun m =>
    if (processMessage env m).2 = [] then none
    else some (m.id, (processMessage env m).2))

/-! ## Checkpoint and coordinator (redact.js V2) -/

def BATCH_SIZE : Nat := 1

structure Checkpoint where
  processedCount : Nat
  redactedMessages : List Msg
  auditLog : List (Int × List Item)
  startedAt : String
deriving Repr, DecidableEq

/-- Slice the pending messages into fixed-size batches. -/
def chunkAux (bs : Nat) : Nat → List Msg → List (List Msg)
  | 0, _ => []
  | _, [] => []
  | Nat.succ fuel, l => l.take bs :: chunkAux bs fuel (l.drop bs)

def makeBatches (bs : Nat) (l : List Msg) : List (List Msg) :=
  chunkAux bs l.length l

/-- The checkpoint update a worker performs under the mutex after a batch
completes: append the batch's messages and audit entries and advance
processedCount by the number of appended messages. -/
def applyCompletion (cp : Checkpoint)
    (res : List Msg × List (Int × List Item)) : Checkpoint :=
  { cp with
    processedCount := cp.processedCount + res.1.length
    redactedMessages := cp.redactedMessages ++ res.1
    auditLog := cp.auditLog ++ res.2 }

/-- Fold the completions over the checkpoint in the order the concurrent
workers finished their batches. -/
def runSchedule (cp : Checkpoint)
    (completions : List (List Msg × List (Int × List Item))) : Checkpoint :=
  completions.foldl applyCompletion cp

/-! ## Checkpoint mutex (CheckpointMutex) and worker interleavings

The mutex is the source's queue/flag pair: acquire grants immediately when
unlocked, otherwise enqueues the caller; release hands the lock to the
queue head (leaving the flag set) or clears the flag.  Workers follow the
structure of processNext: each loop iteration acquires, performs its
checkpoint appends and file write, and releases - the release happening in
a finally block on the success and the error path alike, which is why the
only way out of the critical phase in this model is a release step. -/

/-- Phase of a worker: ready to start an iteration (with k further
iterations), queued on the mutex, or inside the critical section. -/
inductive WPhase
  | ready (k : Nat)
  | queued (k : Nat)
  | critical (k : Nat)
deriving Repr, DecidableEq

structure MutexState (n : Nat) where
  locked : Bool
  queue : List (Fin n)
  phase : Fin n → WPhase

/-- All workers ready, mutex free. -/
def initState (n : Nat) (iters : Fin n → Nat) : MutexState n :=
  ⟨false, [], fun w => .ready (iters w)⟩

/-- Observable events; write covers the checkpoint array appends and the
checkpoint file write performed between acquire and release. -/
inductive MEvent (n : Nat)
  | acquire (w : Fin n)
  | enqueue (w : Fin n)
  | write (w : Fin n)
  | release (w : Fin n)
  | handoff (w v : Fin n)

/-- The worker currently holds the mutex. -/
def isCritical {n : Nat} (s : MutexState n) (w : Fin n) : Prop :=
  ∃ k, s.phase w = .critical k

/-- Interleaving semantics of the mutex protocol and the worker loops. -/
inductive MStep {n : Nat} : MutexState n → MEvent n → MutexState n → Prop
  | acquireFree (s : MutexState n) (w : Fin n) (k : Nat) :
      s.phase w = .ready (k + 1) → s.locked = false →
      MStep s (.acquire w)
        ⟨true, s.queue, Function.update s.phase w (.critical k)⟩
  | acquireBusy (s : MutexState n) (w : Fin n) (k : Nat) :
      s.phase w = .ready (k + 1) → s.locked = true →
      MStep s (.enqueue w)
        ⟨true, s.queue ++ [w], Function.update s.phase w (.queued k)⟩
  | writeStep (s : MutexState n) (w : Fin n) (k : Nat) :
      s.phase w = .critical k →
      MStep s (.write w) s
  | releaseEmpty (s : MutexState n) (w : Fin n) (k : Nat) :
      s.phase w = .critical k → s.queue = [] →
      MStep s (.release w)
        ⟨false, [], Function.update s.phase w (.ready k)⟩
  | releaseHandoff (s : MutexState n) (w v : Fin n) (k j : Nat)
      (rest : List (Fin n)) :
      s.phase w = .critical k → s.queue = v :: rest →
      s.phase v = .queued j →
      MStep s (.handoff w v)
        ⟨true, rest,
         Function.update (Function.update s.phase w (.ready k)) v
           (.critical j)⟩

/-- States reachable from a start state by protocol steps. -/
inductive MReachable {n : Nat} (s0 : MutexState n) : MutexState n → Prop
  | refl : MReachable s0 s0
  | step {s t : MutexState n} {e : MEvent n} :
      MReachable s0 s → MStep s e t → MReachable s0 t

/-! ## Predicates and fixtures used by the claim statements -/

/-- The string substituted by a redaction action is not the data subject's
canonical name and not the canonical email (case-insensitively). -/
def notCanonicalDS (o : String) : Prop :=
  lowerStr o ≠ "john gaskell" ∧ lowerStr o ≠ dsEmail

def hasDigitStr (s : String) : Bool := s.data.any Char.isDigit

/-- The pattern slots whose regexes can only match strings containing a
digit (phones, references, currency, registration and VAT numbers,
addresses with their mandatory house numbers or postcode parts, postcodes
and Eircodes). -/
def digitPatternKeys : List PatKey :=
  [.phone, .reference, .currency, .companyReg, .vatNumber, .fullAddress,
   .postcode, .eircode, .address]

/-- Structural facts about what the PATTERNS regexes can produce, stated on
the lowercased match: digit-bearing categories always contain a digit,
email matches contain an at sign, URL matches contain a dot. -/
def PatEnvShape (env : PatEnv) : Prop :=
  (∀ k ∈ digitPatternKeys, ∀ i, ∀ m ∈ env k i,
    hasDigitStr (lowerStr m) = true) ∧
  (∀ i, ∀ m ∈ env PatKey.email i, containsSub (lowerStr m) "@" = true) ∧
  (∀ i, ∀ m ∈ env PatKey.url i, containsSub (lowerStr m) "." = true)

/-- The alternatives of the titled-name regex's title group. -/
def titleWords : List String :=
  ["mr", "mr.", "mrs", "mrs.", "ms", "ms.", "miss", "dr", "dr.", "prof",
   "prof."]

/-- Structural fact about the titled-name captures: the title group can
only produce one of the listed title words. -/
def ParanoidEnvShape (env : ParanoidEnv) : Bool :=
  env.titled.all (fun p => titleWords.contains (lowerStr p.1))

/-- Number of entries in a recipient-entry list that match or contain the
data subject. -/
def countDSEntries (l : List String) : Nat :=
  (l.filter (fun e => isDataSubject e || containsDataSubject e)).length

/-- Structural rendering of the deduplication loop, tracking the last kept
entry. -/
def collapseFrom (prev : String) : List String → List String
  | [] => []
  | p :: rest =>
    if p = "[REDACTED]" && prev = "[REDACTED]" then collapseFrom prev rest
    else p :: collapseFrom p rest

/-- Number of consecutive duplicate placeholder pairs in a list. -/
def consecRedDups : List String → Nat
  | a :: b :: rest =>
    (if a = "[REDACTED]" && b = "[REDACTED]" then 1 else 0)
      + consecRedDups (b :: rest)
  | _ => 0

/-- A trivial text environment: the pattern and paranoid transforms leave
the text unchanged and report no items. -/
def trivialTextEnv : TextEnv := ⟨fun t => (t, []), fun t => (t, [])⟩

/-- A trivial AI substitution environment. -/
def trivialAIEnv : AISubstEnv := ⟨fun _ _ => false, fun t _ _ => t⟩

/-- A message as extraction produces it, attachment fields present. -/
def msgWithAttachments : Msg :=
  ⟨7, ⟨"Sarah Smith", "sarah@acme.com"⟩, ⟨"John Gaskell", "", ""⟩,
   "Update", "", "2024-07-15", "IPM.Note", "a.pst", some [], some true⟩

/-- A paranoid environment in which the titled-name regex captured
"Mr May", whose name part sits on the common-word deny list. -/
def envMrMay : ParanoidEnv := ⟨[], [], [], [("Mr", "May")], [], [], []⟩

/-- A paranoid environment in which the greeting regex captured a name. -/
def envGreetZelda : ParanoidEnv := ⟨[("Hi", "Zelda")], [], [], [], [], [], []⟩

/-- A message whose body contains a quoted reply behind an equals-sign
rule at index 57. -/
def msgWithQuotedReply : Msg :=
  ⟨3, ⟨"Ann B", "ann@x.com"⟩, ⟨"John Gaskell", "", ""⟩, "Re: quote",
   "keep this part  \nbbbbbbbbbbbbbbbbbbbbbbbbbbbbbbbbbbbbbbbb\n======================\nquoted",
   "", "", "b.pst", none, none⟩

/-- A body whose quoted-reply separator occurs once near the start (index
2) and once past the 50-character guard (index 71). -/
def bodyWithLateSeparator : String :=
  "Hi\n> he wrote: ok\nplease confirm the delivery slot for tomorrow morning\n> she wrote: quoted reply text here"

/-- A pattern-match environment in which only the first phone regex
matched, once. -/
def envPhone : PatEnv := fun k i =>
  if k = PatKey.phone ∧ i = 0 then ["07527 176522"] else []

/-! # Theorems -/

/-! ## Shared lemmas about the data-subject matcher -/

theorem isDS_of_lower_name {x : String} (hx : lowerStr x = "john gaskell") :
    isDataSubject x = true := by
  have hne : x ≠ "" := by
    intro he
    subst he
    exact absurd hx (by decide)
  unfold isDataSubject
  rw [if_neg hne, hx]
  decide

theorem isDS_of_lower_email {x : String} (hx : lowerStr x = dsEmail) :
    isDataSubject x = true := by
  have hne : x ≠ "" := by
    intro he
    subst he
    exact absurd hx (by decide)
  unfold isDataSubject
  rw [if_neg hne, hx]
  decide

theorem notCanonical_of_not_isDS {x : String} (h : isDataSubject x = false) :
    notCanonicalDS x := by
  constructor
  · intro hx
    rw [isDS_of_lower_name hx] at h
    exact Bool.noConfusion h
  · intro hx
    rw [isDS_of_lower_email hx] at h
    exact Bool.noConfusion h

/-! ## C4: order of the pattern categories -/

theorem redactPatternsItems_eq_spec (env : PatEnv) :
    redactPatternsItems env = redactPatternsSpecItems env := by
  simp [redactPatternsItems, redactPatternsSpecItems, specPatternOrder,
    List.flatten]

/-- C4: redactPatterns applies its pattern categories in exactly the fixed
order stated by the specification - full postal/unit addresses first, then
bare street addresses, then standalone postcodes and Eircodes, then emails,
then phones, then reference numbers, then currency amounts, then company
registration and VAT numbers, and generic URLs last: the source's sequence
of applyPattern calls coincides with the fold over the specification's
ordered category list. -/
theorem c4_pattern_order (env : PatEnv) :
    redactPatternsItems env = redactPatternsSpecItems env :=
  redactPatternsItems_eq_spec env

/-! ## C3: message shape and id under processMessage -/

/-- C3 counterexample: processMessage removes the top-level attachments and
hasAttachments keys that extraction put on the message, so the structural
shape is not preserved verbatim. -/
theorem c3_counterexample :
    "hasAttachments" ∈ msgKeys msgWithAttachments ∧
    "hasAttachments" ∉ msgKeys (processMessage trivialTextEnv msgWithAttachments).1 ∧
    "attachments" ∈ msgKeys msgWithAttachments ∧
    "attachments" ∉ msgKeys (processMessage trivialTextEnv msgWithAttachments).1 := by
  decide

/-- C3 (amended): the redacted message keeps the input's id, and its
top-level keys are exactly the eight structured keys - every input key
except attachments and hasAttachments, which processMessage deletes, is
preserved, and no key is added. -/
theorem c3_shape_and_id (env : TextEnv) (m : Msg) :
    (processMessage env m).1.id = m.id ∧
    msgKeys (processMessage env m).1 =
      ["id", "sender", "recipients", "subject", "body", "date",
       "messageClass", "sourceFile"] ∧
    (∀ k ∈ msgKeys m, k ≠ "attachments" → k ≠ "hasAttachments" →
      k ∈ msgKeys (processMessage env m).1) := by
  have hbase : msgKeys (processMessage env m).1 =
      ["id", "sender", "recipients", "subject", "body", "date",
       "messageClass", "sourceFile"] := rfl
  refine ⟨rfl, hbase, ?_⟩
  intro k hk hka hkh
  rw [hbase]
  unfold msgKeys at hk
  simp only [List.mem_append] at hk
  rcases hk with (hk | hk) | hk
  · simpa using hk
  · rcases h2 : Msg.attachments m with _ | _ <;> rw [h2] at hk <;> simp at hk
    exact absurd hk hka
  · rcases h2 : Msg.hasAttachments m with _ | _ <;> rw [h2] at hk <;>
      simp at hk
    exact absurd hk hkh

/-- C3 witness. -/
theorem c3_shape_and_id_witness :
    "id" ∈ msgKeys (processMessage trivialTextEnv msgWithAttachments).1 := by
  have h := c3_shape_and_id trivialTextEnv msgWithAttachments
  exact h.2.1 ▸ (by decide)

/-! ## C7: gates of the paranoid pass -/

theorem greetingItem_gates {nm : String} {p : String × Item}
    (h : greetingItem nm = some p) :
    p.1 = nm ∧ isDataSubject nm = false ∧
    COMMON_WORDS.contains (lowerStr nm) = false ∧
    p.2.original = nm ∧ p.2.type = "greeting_name" := by
  unfold greetingItem at h
  split at h
  · exact Option.noConfusion h
  · rename_i hcond
    injection h with h
    subst h
    simp only [Bool.or_eq_true, not_or, Bool.not_eq_true] at hcond
    exact ⟨rfl, hcond.1, hcond.2, rfl, rfl⟩

theorem signatureItem_gates {nm : String} {p : String × Item}
    (h : signatureItem nm = some p) :
    p.1 = nm ∧ isDataSubject nm = false ∧
    COMMON_WORDS.contains (lowerStr nm) = false ∧
    p.2.original = nm ∧ p.2.type = "signature_name" := by
  unfold signatureItem at h
  split at h
  · exact Option.noConfusion h
  · rename_i hcond
    split at h
    · exact Option.noConfusion h
    · injection h with h
      subst h
      simp only [Bool.or_eq_true, not_or, Bool.not_eq_true] at hcond
      exact ⟨rfl, hcond.1, hcond.2, rfl, rfl⟩

theorem parensItem_gates {nm : String} {p : String × Item}
    (h : parensItem nm = some p) :
    p.1 = nm ∧ isDataSubject nm = false ∧
    COMMON_WORDS.contains (lowerStr nm) = false ∧
    p.2.original = nm ∧ p.2.type = "parentheses_name" := by
  unfold parensItem at h
  split at h
  · exact Option.noConfusion h
  · rename_i hcond
    injection h with h
    subst h
    simp only [Bool.or_eq_true, not_or, Bool.not_eq_true] at hcond
    exact ⟨rfl, hcond.1, hcond.2, rfl, rfl⟩

theorem titledItem_gates {t nm : String} {p : String × Item}
    (h : titledItem t nm = some p) :
    p.1 = nm ∧ isDataSubject nm = false ∧
    p.2.original = t ++ " " ++ nm ∧ p.2.type = "titled_name" := by
  unfold titledItem at h
  split at h
  · exact Option.noConfusion h
  · rename_i hcond
    injection h with h
    subst h
    simp only [Bool.not_eq_true] at hcond
    exact ⟨rfl, hcond, rfl, rfl⟩

theorem labeledItem_gates {nm : String} {p : String × Item}
    (h : labeledItem nm = some p) :
    p.1 = nm ∧ isDataSubject nm = false ∧
    p.2.original = nm ∧ p.2.type = "labeled_name" := by
  unfold labeledItem at h
  split at h
  · exact Option.noConfusion h
  · rename_i hcond
    split at h
    · exact Option.noConfusion h
    · injection h with h
      subst h
      simp only [Bool.not_eq_true] at hcond
      exact ⟨rfl, hcond, rfl, rfl⟩

theorem standaloneItem_gates {mt nm : String} {p : String × Item}
    (h : standaloneItem mt nm = some p) :
    p.1 = nm ∧ isDataSubject nm = false ∧
    COMMON_WORDS.contains (lowerStr nm) = false ∧
    p.2.original = nm ∧ p.2.type = "standalone_name" := by
  unfold standaloneItem at h
  split at h
  · exact Option.noConfusion h
  · rename_i h1
    split at h
    · exact Option.noConfusion h
    · rename_i h2
      split at h
      · exact Option.noConfusion h
      · split at h
        · exact Option.noConfusion h
        · split at h
          · exact Option.noConfusion h
          · injection h with h
            subst h
            simp only [Bool.not_eq_true] at h1 h2
            exact ⟨rfl, h1, h2, rfl, rfl⟩

theorem lineStartItem_gates {nm after : String} {p : String × Item}
    (h : lineStartItem nm after = some p) :
    p.1 = nm ∧ isDataSubject nm = false ∧
    COMMON_WORDS.contains (lowerStr nm) = false ∧
    p.2.original = nm ∧ p.2.type = "signature_name" := by
  unfold lineStartItem at h
  split at h
  · exact Option.noConfusion h
  · rename_i h1
    split at h
    · exact Option.noConfusion h
    · rename_i h2
      split at h
      · exact Option.noConfusion h
      · split at h
        · injection h with h
          subst h
          simp only [Bool.not_eq_true] at h1 h2
          exact ⟨rfl, h1, h2, rfl, rfl⟩
        · exact Option.noConfusion h

/-- C7 counterexample: the titled-name sub-pattern substitutes "Mr May"
although the captured name "May" sits on the common-word deny list, so not
every candidate match is checked against the deny list before
substitution. -/
theorem c7_counterexample :
    ("May", (⟨"Mr May", "titled_name", "Mr [REDACTED NAME]", "", ""⟩ : Item))
        ∈ paranoidItemsWithNames envMrMay ∧
    COMMON_WORDS.contains (lowerStr "May") = true ∧
    isDataSubject "May" = false := by
  decide

/-- C7 (amended): every paranoid substitution's candidate name is checked
against the data-subject matcher; every sub-pattern except the titled-name
and labeled-name ones also checks the candidate against the common-word
deny list. -/
theorem c7_paranoid_gates (env : ParanoidEnv) :
    ∀ p ∈ paranoidItemsWithNames env,
      isDataSubject p.1 = false ∧
      (p.2.type ≠ "titled_name" → p.2.type ≠ "labeled_name" →
        COMMON_WORDS.contains (lowerStr p.1) = false) := by
  intro p hp
  unfold paranoidItemsWithNames at hp
  simp only [List.mem_append, List.mem_filterMap] at hp
  rcases hp with ((((((⟨q, _, hs⟩ | ⟨q, _, hs⟩) | ⟨q, _, hs⟩) | ⟨q, _, hs⟩)
    | ⟨q, _, hs⟩) | ⟨q, _, hs⟩) | ⟨q, _, hs⟩)
  · obtain ⟨h1, h2, h3, _, _⟩ := greetingItem_gates hs
    exact ⟨h1 ▸ h2, fun _ _ => h1 ▸ h3⟩
  · obtain ⟨h1, h2, h3, _, _⟩ := signatureItem_gates hs
    exact ⟨h1 ▸ h2, fun _ _ => h1 ▸ h3⟩
  · obtain ⟨h1, h2, h3, _, _⟩ := parensItem_gates hs
    exact ⟨h1 ▸ h2, fun _ _ => h1 ▸ h3⟩
  · obtain ⟨h1, h2, _, h4⟩ := titledItem_gates hs
    exact ⟨h1 ▸ h2, fun hne _ => absurd h4 hne⟩
  · obtain ⟨h1, h2, _, h4⟩ := labeledItem_gates hs
    exact ⟨h1 ▸ h2, fun _ hne => absurd h4 hne⟩
  · obtain ⟨h1, h2, h3, _, _⟩ := standaloneItem_gates hs
    exact ⟨h1 ▸ h2, fun _ _ => h1 ▸ h3⟩
  · obtain ⟨h1, h2, h3, _, _⟩ := lineStartItem_gates hs
    exact ⟨h1 ▸ h2, fun _ _ => h1 ▸ h3⟩

/-- C7 witness. -/
theorem c7_paranoid_gates_witness :
    isDataSubject "Zelda" = false ∧
    COMMON_WORDS.contains (lowerStr "Zelda") = false := by
  have h := c7_paranoid_gates envGreetZelda
      ("Zelda", ⟨"Zelda", "greeting_name", "[REDACTED NAME]", "", ""⟩)
      (by decide)
  exact ⟨h.1, h.2 (by decide) (by decide)⟩

/-! ## C10: reply-thread trimming -/

theorem trimStr_length_le (s : String) : (trimStr s).length ≤ s.length := by
  show (((s.data.dropWhile isWS).reverse.dropWhile isWS).reverse).length
      ≤ s.data.length
  rw [List.length_reverse]
  calc ((s.data.dropWhile isWS).reverse.dropWhile isWS).length
      ≤ (s.data.dropWhile isWS).reverse.length :=
        (List.dropWhile_sublist _).length_le
    _ = (s.data.dropWhile isWS).length := List.length_reverse _
    _ ≤ s.data.length := (List.dropWhile_sublist _).length_le

theorem cutAtSep_length_le (t : String) (sp : Sep) :
    (cutAtSep t sp).length ≤ t.length := by
  unfold cutAtSep
  cases hf : firstSepIdx sp t.data with
  | none => exact Nat.le_refl _
  | some i =>
    show (if i > 50 then trimStr ⟨t.data.take i⟩ else t).length ≤ t.length
    by_cases hi : i > 50
    · rw [if_pos hi]
      calc (trimStr ⟨t.data.take i⟩).length
          ≤ (String.mk (t.data.take i)).length := trimStr_length_le _
        _ ≤ t.length := (List.take_sublist _ _).length_le
    · rw [if_neg hi]

theorem foldl_cutAtSep_length_le (l : List Sep) (t : String) :
    (l.foldl cutAtSep t).length ≤ t.length := by
  induction l generalizing t with
  | nil => exact Nat.le_refl _
  | cons sp rest ih =>
    exact Nat.le_trans (ih (cutAtSep t sp)) (cutAtSep_length_le t sp)

theorem trimReplyThreads_length_le (body : String) :
    (trimReplyThreads body).length ≤ body.length := by
  unfold trimReplyThreads
  split
  · exact Nat.le_refl _
  · exact foldl_cutAtSep_length_le _ _

/-- A cut happens only at a separator's first match past index 50. -/
theorem cutAtSep_characterization (t : String) (sp : Sep)
    (h : cutAtSep t sp ≠ t) :
    ∃ i, firstSepIdx sp t.data = some i ∧ i > 50 ∧
      cutAtSep t sp = trimStr ⟨t.data.take i⟩ := by
  unfold cutAtSep at h ⊢
  cases hf : firstSepIdx sp t.data with
  | none => rw [hf] at h; exact absurd rfl h
  | some i =>
    rw [hf] at h
    have hred : (match some i with
        | some j => if j > 50 then trimStr ⟨t.data.take j⟩ else t
        | none => t) = if i > 50 then trimStr ⟨t.data.take i⟩ else t := rfl
    rw [hred] at h
    by_cases hi : i > 50
    · refine ⟨i, rfl, hi, ?_⟩
      show (if i > 50 then trimStr ⟨t.data.take i⟩ else t)
          = trimStr ⟨t.data.take i⟩
      rw [if_pos hi]
    · rw [if_neg hi] at h
      exact absurd rfl h

theorem redactSender_type_ne {s : Sender} {it : Item}
    (h : it ∈ (redactSender s).2) : it.type ≠ "reply_trimmed" := by
  simp only [redactSender] at h
  split at h
  · simp at h
  · simp only [List.mem_append] at h
    rcases h with h | h
    · split at h
      · simp at h
        subst h
        show ("sender_name" : String) ≠ "reply_trimmed"
        decide
      · simp at h
    · split at h
      · simp at h
        subst h
        show ("sender_email" : String) ≠ "reply_trimmed"
        decide
      · simp at h

theorem recipient_type_ne (f : String) :
    ("recipient_" ++ f) ≠ "reply_trimmed" := by
  intro h
  have hd := congrArg String.data h
  rw [String.data_append] at hd
  have h1 : "recipient_".data
      = ['r', 'e', 'c', 'i', 'p', 'i', 'e', 'n', 't', '_'] := rfl
  have h2 : "reply_trimmed".data
      = ['r', 'e', 'p', 'l', 'y', '_', 't', 'r', 'i', 'm', 'm', 'e', 'd'] := rfl
  rw [h1, h2] at hd
  simp at hd

theorem redactRecipientField_type_ne {f v : String} {it : Item}
    (h : it ∈ (redactRecipientField f v).2) : it.type ≠ "reply_trimmed" := by
  unfold redactRecipientField at h
  split at h
  · simp at h
  · simp only at h
    unfold recipientItemsOf at h
    rw [List.mem_flatten] at h
    obtain ⟨l, hl, hit⟩ := h
    rw [List.mem_map] at hl
    obtain ⟨part, _, hpl⟩ := hl
    unfold recipientStep at hpl
    split at hpl
    · rw [← hpl] at hit; simp at hit
    · rw [← hpl] at hit
      simp at hit
      rw [hit]
      exact recipient_type_ne f

theorem redactRecipients_type_ne {r : Recipients} {it : Item}
    (h : it ∈ (redactRecipients r).2) : it.type ≠ "reply_trimmed" := by
  unfold redactRecipients at h
  simp only [List.mem_append] at h
  rcases h with (h | h) | h <;> exact redactRecipientField_type_ne h

/-- C10 counterexample: in bodyWithLateSeparator the quoted-reply separator
matches at index 71, past the 50-character guard, yet trimReplyThreads
leaves the body unchanged: the guard is keyed on each separator kind's
first match (here index 2), so quoted content after a later qualifying
separator occurrence is not deleted. -/
theorem c10_counterexample :
    sepMatchAt Sep.wrote (bodyWithLateSeparator.data.drop 71) = true ∧
    (71 : Nat) > 50 ∧
    firstSepIdx Sep.wrote bodyWithLateSeparator.data = some 2 ∧
    trimReplyThreads bodyWithLateSeparator = bodyWithLateSeparator := by
  decide

/-- C10 (amended): reply-thread trimming truncates the body iteratively,
one separator kind at a time in a fixed order, cutting at a kind's first
match only when that match is past character index 50 (a kind whose first
match is at index at most 50 does not trim even if it matches again
later); trimming never lengthens the body; and the audit carries exactly
one reply_trimmed item, recording the number of removed characters,
precisely when trimming shortened the body (for environments whose pattern
and paranoid stages do not emit reply_trimmed items, as the real stages
cannot). -/
theorem c10_reply_trim (env : TextEnv) (m : Msg)
    (henvP : ∀ t it, it ∈ (env.patterns t).2 → it.type ≠ "reply_trimmed")
    (henvQ : ∀ t it, it ∈ (env.paranoid t).2 → it.type ≠ "reply_trimmed") :
    (trimReplyThreads m.body).length ≤ m.body.length ∧
    (∀ t sp, cutAtSep t sp ≠ t →
      ∃ i, firstSepIdx sp t.data = some i ∧ i > 50 ∧
        cutAtSep t sp = trimStr ⟨t.data.take i⟩) ∧
    ((processMessage env m).2.filter (fun it => it.type = "reply_trimmed")
      = if (trimReplyThreads m.body).length < m.body.length then
          [replyTrimItem (m.body.length - (trimReplyThreads m.body).length)]
        else []) := by
  refine ⟨trimReplyThreads_length_le _,
    fun t sp h => cutAtSep_characterization t sp h, ?_⟩
  have hs : (redactSender m.sender).2.filter
      (fun it => it.type = "reply_trimmed") = [] := by
    rw [List.filter_eq_nil_iff]
    intro it hit
    simpa using redactSender_type_ne hit
  have hr : (redactRecipients m.recipients).2.filter
      (fun it => it.type = "reply_trimmed") = [] := by
    rw [List.filter_eq_nil_iff]
    intro it hit
    simpa using redactRecipients_type_ne hit
  have hmap : ∀ (l : List Item) (f : String),
      (∀ it ∈ l, it.type ≠ "reply_trimmed") →
      ((l.map (fun it => { it with field := f })).filter
        (fun it => it.type = "reply_trimmed")) = [] := by
    intro l f hl
    rw [List.filter_eq_nil_iff]
    intro it hit
    rw [List.mem_map] at hit
    obtain ⟨it0, hit0, heq⟩ := hit
    subst heq
    simpa using hl it0 hit0
  have hpat : ∀ t : String,
      ∀ a ∈ (if t = "" then (t, ([] : List Item)) else env.patterns t).2,
        ¬ a.type = "reply_trimmed" := by
    intro t a ha
    split at ha
    · simp at ha
    · exact henvP t a ha
  have hpar : ∀ t : String,
      ∀ a ∈ (if t = "" then (t, ([] : List Item)) else env.paranoid t).2,
        ¬ a.type = "reply_trimmed" := by
    intro t a ha
    split at ha
    · simp at ha
    · exact henvQ t a ha
  unfold processMessage
  simp only [List.filter_append, hs, hr]
  by_cases hb : m.body = ""
  · simp [hb, trimReplyThreads]
    exact hpat _
  · by_cases hc : (trimReplyThreads m.body).length < m.body.length
    · simp [hb, hc, replyTrimItem]
      exact ⟨hpat _, hpat _, hpar _⟩
    · simp [hb, hc]
      exact ⟨hpat _, hpat _, hpar _⟩

/-- C10 witness. -/
theorem c10_reply_trim_witness :
    (processMessage trivialTextEnv msgWithQuotedReply).2.filter
      (fun it => it.type = "reply_trimmed") = [replyTrimItem 30] := by
  have h := c10_reply_trim trivialTextEnv msgWithQuotedReply
    (by intro t it hit; simp [trivialTextEnv] at hit)
    (by intro t it hit; simp [trivialTextEnv] at hit)
  rw [h.2.2]
  decide

/-! ## C6: recipient-field entry accounting -/

theorem dedupeRedacted_acc (l : List String) :
    ∀ (a : String) (acc : List String),
      dedupeRedacted (a :: acc) l = (a :: acc).reverse ++ collapseFrom a l := by
  induction l with
  | nil => intro a acc; simp [dedupeRedacted, collapseFrom]
  | cons p rest ih =>
    intro a acc
    unfold dedupeRedacted collapseFrom
    simp only [List.head?_cons]
    by_cases hp : p = "[REDACTED]" ∧ a = "[REDACTED]"
    · have hcond : (p = "[REDACTED]" && (some a = some "[REDACTED]")) = true := by
        simp [hp.1, hp.2]
      rw [if_pos hcond, if_pos (by simp [hp.1, hp.2])]
      exact ih a acc
    · rw [if_neg (by intro hc; simp at hc; exact hp ⟨hc.1, hc.2⟩),
        if_neg (by intro hc; simp at hc; exact hp ⟨hc.1, hc.2⟩)]
      rw [ih p (a :: acc)]
      simp

theorem dedupeRedacted_nil : ∀ l : List String,
    dedupeRedacted [] l =
      match l with
      | [] => []
      | p :: rest => p :: collapseFrom p rest := by
  intro l
  cases l with
  | nil => rfl
  | cons p rest =>
    unfold dedupeRedacted
    simp only [List.head?_nil]
    rw [if_neg (by simp)]
    simpa using dedupeRedacted_acc rest p []

theorem consecRedDups_cons2 (x y : String) (rest : List String) :
    consecRedDups (x :: y :: rest)
      = (if x = "[REDACTED]" && y = "[REDACTED]" then 1 else 0)
        + consecRedDups (y :: rest) := rfl

theorem collapseFrom_length (l : List String) :
    ∀ prev : String,
      (collapseFrom prev l).length + consecRedDups (prev :: l) = l.length := by
  induction l with
  | nil => intro prev; simp [collapseFrom, consecRedDups]
  | cons p r2 ih =>
    intro prev
    rw [consecRedDups_cons2]
    unfold collapseFrom
    by_cases hp : p = "[REDACTED]" ∧ prev = "[REDACTED]"
    · rw [if_pos (by simp [hp.1, hp.2]), if_pos (by simp [hp.1, hp.2])]
      have hpp : p = prev := hp.1.trans hp.2.symm
      rw [hpp]
      have h2 := ih prev
      simp only [List.length_cons]
      omega
    · rw [if_neg (by intro hc; simp at hc; exact hp ⟨hc.1, hc.2⟩),
        if_neg (by intro hc; simp at hc; exact hp ⟨hc.2, hc.1⟩)]
      have h2 := ih p
      simp only [List.length_cons]
      omega

theorem collapseFrom_filter (l : List String) :
    ∀ prev : String,
      (collapseFrom prev l).filter (fun e => e ≠ "[REDACTED]")
        = l.filter (fun e => e ≠ "[REDACTED]") := by
  induction l with
  | nil => intro prev; rfl
  | cons p r2 ih =>
    intro prev
    unfold collapseFrom
    by_cases hp : p = "[REDACTED]" ∧ prev = "[REDACTED]"
    · rw [if_pos (by simp [hp.1, hp.2])]
      rw [ih prev, List.filter_cons, if_neg (by simp [hp.1])]
    · rw [if_neg (by intro hc; simp at hc; exact hp ⟨hc.1, hc.2⟩)]
      rw [List.filter_cons, List.filter_cons]
      by_cases hpr : p = "[REDACTED]"
      · rw [if_neg (by simp [hpr]), if_neg (by simp [hpr])]
        exact ih p
      · rw [if_pos (by simp [hpr]), if_pos (by simp [hpr])]
        rw [ih p]

theorem collapseFrom_chain (l : List String) :
    ∀ prev : String,
      List.Chain' (fun a b => ¬(a = "[REDACTED]" ∧ b = "[REDACTED]"))
        (prev :: collapseFrom prev l) := by
  induction l with
  | nil => intro prev; simp [collapseFrom]
  | cons p r2 ih =>
    intro prev
    unfold collapseFrom
    by_cases hp : p = "[REDACTED]" ∧ prev = "[REDACTED]"
    · rw [if_pos (by simp [hp.1, hp.2])]
      exact ih prev
    · rw [if_neg (by intro hc; simp at hc; exact hp ⟨hc.1, hc.2⟩)]
      exact List.Chain'.cons (fun hc => hp ⟨hc.2, hc.1⟩) (ih p)

theorem collapseFrom_subset {l : List String} {prev x : String}
    (h : x ∈ collapseFrom prev l) : x ∈ l := by
  induction l generalizing prev with
  | nil => simp [collapseFrom] at h
  | cons p r2 ih =>
    unfold collapseFrom at h
    split at h
    · exact List.mem_cons_of_mem _ (ih h)
    · rcases List.mem_cons.mp h with h | h
      · exact h ▸ List.mem_cons_self _ _
      · exact List.mem_cons_of_mem _ (ih h)

theorem recipientStep_entry_cases (fieldName part : String) :
    (recipientStep fieldName part).1 = "[REDACTED]"
    ∨ (recipientStep fieldName part).1 = "John Gaskell"
    ∨ (recipientStep fieldName part).1 = dsEmail := by
  unfold recipientStep classifyDSPart
  split
  · split
    · exact Or.inr (Or.inl rfl)
    · split
      · exact Or.inr (Or.inr rfl)
      · exact Or.inr (Or.inl rfl)
  · exact Or.inl rfl

/-- C6 counterexample: the to-field "John Gaskell, Sarah Smith, John
Gaskell" is rebuilt as the entries ["John Gaskell", "[REDACTED]", "John
Gaskell"]: the data-subject entry is retained twice, not at most once -
only consecutive duplicate placeholders are collapsed. -/
theorem c6_counterexample :
    redactRecipientEntries "to" "John Gaskell, Sarah Smith, John Gaskell"
      = ["John Gaskell", "[REDACTED]", "John Gaskell"]
    ∧ countDSEntries (redactRecipientEntries "to"
        "John Gaskell, Sarah Smith, John Gaskell") = 2 := by
  decide

/-- C6 (amended): each recipient field is split on ';'/',' into entries and
each entry is either kept/normalized (data subject) or replaced by the
placeholder; the output entry count equals the input entry count minus the
number of consecutive duplicate placeholder pairs; all non-placeholder
entries (in particular every data-subject entry, however often it occurs)
are preserved in order; and the output never contains two adjacent
placeholders.  The data-subject entry may appear more than once. -/
theorem c6_recipient_entries (fieldName value : String) :
    (redactRecipientEntries fieldName value).length
        + consecRedDups
            ((splitParts value).map (fun p => (recipientStep fieldName p).1))
      = (splitParts value).length ∧
    (redactRecipientEntries fieldName value).filter (fun e => e ≠ "[REDACTED]")
      = ((splitParts value).map
          (fun p => (recipientStep fieldName p).1)).filter
            (fun e => e ≠ "[REDACTED]") ∧
    List.Chain' (fun a b => ¬(a = "[REDACTED]" ∧ b = "[REDACTED]"))
      (redactRecipientEntries fieldName value) ∧
    (∀ e ∈ redactRecipientEntries fieldName value,
      e = "[REDACTED]" ∨ e = "John Gaskell" ∨ e = dsEmail) := by
  unfold redactRecipientEntries
  rw [dedupeRedacted_nil]
  cases hm : (splitParts value).map (fun p => (recipientStep fieldName p).1) with
  | nil =>
    have hparts : splitParts value = [] := by
      cases hsp : splitParts value
      · rfl
      · rw [hsp] at hm; simp at hm
    simp [hparts, consecRedDups]
  | cons p rest =>
    have hlen : (splitParts value).length = (p :: rest).length := by
      rw [← hm, List.length_map]
    refine ⟨?_, ?_, ?_, ?_⟩
    · have := collapseFrom_length rest p
      rw [hlen]
      simp only [List.length_cons]
      omega
    · rw [List.filter_cons, List.filter_cons]
      by_cases hpr : p = "[REDACTED]"
      · rw [if_neg (by simp [hpr]), if_neg (by simp [hpr])]
        exact collapseFrom_filter rest p
      · rw [if_pos (by simp [hpr]), if_pos (by simp [hpr])]
        rw [collapseFrom_filter rest p]
    · exact collapseFrom_chain rest p
    · intro e he
      have hmem : e ∈ p :: rest := by
        rcases List.mem_cons.mp he with h | h
        · exact h ▸ List.mem_cons_self _ _
        · exact List.mem_cons_of_mem _ (collapseFrom_subset h)
      rw [← hm] at hmem
      rw [List.mem_map] at hmem
      obtain ⟨part, _, hpe⟩ := hmem
      exact hpe ▸ recipientStep_entry_cases fieldName part

/-- C6 witness. -/
theorem c6_recipient_entries_witness :
    (redactRecipientEntries "to" "a@b.com; c@d.com; John Gaskell").length
        + consecRedDups ((splitParts "a@b.com; c@d.com; John Gaskell").map
            (fun p => (recipientStep "to" p).1))
      = 3 := by
  have h := (c6_recipient_entries "to" "a@b.com; c@d.com; John Gaskell").1
  rw [h]
  decide

/-! ## C1: the data subject is never substituted -/

theorem lowerStr_append (a b : String) :
    lowerStr (a ++ b) = lowerStr a ++ lowerStr b := by
  show String.mk (((a ++ b).data).map Char.toLower) = _
  rw [String.data_append, List.map_append]
  rfl

theorem digit_notCanonical {m : String}
    (hd : hasDigitStr (lowerStr m) = true) : notCanonicalDS m := by
  constructor
  · intro hx; rw [hx] at hd; exact absurd hd (by decide)
  · intro hx; rw [hx] at hd; exact absurd hd (by decide)

theorem email_notCanonical {m : String}
    (hat : containsSub (lowerStr m) "@" = true)
    (hne : lowerStr m ≠ lowerStr dsEmail) : notCanonicalDS m := by
  constructor
  · intro hx; rw [hx] at hat; exact absurd hat (by decide)
  · intro hx
    apply hne
    rw [hx]
    decide

theorem url_notCanonical {m : String}
    (hdot : containsSub (lowerStr m) "." = true)
    (hfl : containsSub (lowerStr m) "freightlink" = false) :
    notCanonicalDS m := by
  constructor
  · intro hx; rw [hx] at hdot; exact absurd hdot (by decide)
  · intro hx; rw [hx] at hfl; exact absurd hfl (by decide)

theorem titled_notCanonical {t nm : String} (ht : lowerStr t ∈ titleWords) :
    notCanonicalDS (t ++ " " ++ nm) := by
  have hx : lowerStr (t ++ " " ++ nm) = lowerStr t ++ " " ++ lowerStr nm := by
    rw [lowerStr_append, lowerStr_append]
    rfl
  have ht2 : lowerStr t = "mr" ∨ lowerStr t = "mr." ∨ lowerStr t = "mrs"
      ∨ lowerStr t = "mrs." ∨ lowerStr t = "ms" ∨ lowerStr t = "ms."
      ∨ lowerStr t = "miss" ∨ lowerStr t = "dr" ∨ lowerStr t = "dr."
      ∨ lowerStr t = "prof" ∨ lowerStr t = "prof." := by
    simpa [titleWords] using ht
  constructor <;> rw [hx] <;>
    rcases ht2 with h|h|h|h|h|h|h|h|h|h|h <;> rw [h] <;> intro hc <;>
    first
    | exact absurd (show (some 'm' : Option Char) = some 'j' from
        congrArg (fun s : String => s.data.head?) hc) (by decide)
    | exact absurd (show (some 'd' : Option Char) = some 'j' from
        congrArg (fun s : String => s.data.head?) hc) (by decide)
    | exact absurd (show (some 'p' : Option Char) = some 'j' from
        congrArg (fun s : String => s.data.head?) hc) (by decide)

theorem redactSender_not_ds {s : Sender} {it : Item}
    (h : it ∈ (redactSender s).2) : isDataSubject it.original = false := by
  simp only [redactSender] at h
  split at h
  · simp at h
  · rename_i hds
    simp only [Bool.or_eq_true, not_or, Bool.not_eq_true] at hds
    simp only [List.mem_append] at h
    rcases h with h | h
    · split at h
      · simp at h
        subst h
        exact hds.1
      · simp at h
    · split at h
      · simp at h
        subst h
        exact hds.2
      · simp at h

theorem recipientStep_not_ds {f part : String} {it : Item}
    (h : it ∈ (recipientStep f part).2) :
    isDataSubject it.original = false := by
  unfold recipientStep at h
  split at h
  · simp at h
  · rename_i hds
    simp only [Bool.or_eq_true, not_or, Bool.not_eq_true] at hds
    simp at h
    subst h
    exact hds.1

theorem redactRecipients_not_ds {r : Recipients} {it : Item}
    (h : it ∈ (redactRecipients r).2) : isDataSubject it.original = false := by
  have hf : ∀ f v, it ∈ (redactRecipientField f v).2 →
      isDataSubject it.original = false := by
    intro f v hm
    unfold redactRecipientField at hm
    split at hm
    · simp at hm
    · simp only at hm
      unfold recipientItemsOf at hm
      rw [List.mem_flatten] at hm
      obtain ⟨l, hl, hit⟩ := hm
      rw [List.mem_map] at hl
      obtain ⟨part, _, hpl⟩ := hl
      have hit2 : it ∈ (recipientStep f part).2 := hpl ▸ hit
      exact recipientStep_not_ds hit2
  unfold redactRecipients at h
  simp only [List.mem_append] at h
  rcases h with (h | h) | h <;> exact hf _ _ h

theorem mem_applyPatternItems {ty repl : String} {ms : List String}
    {it : Item} (h : it ∈ applyPatternItems ty repl ms) :
    ∃ m ∈ ms, it.original = m ∧ it.type = ty
      ∧ (ty = "email" → lowerStr m ≠ lowerStr dsEmail)
      ∧ (ty = "url" → containsSub (lowerStr m) "freightlink" = false) := by
  unfold applyPatternItems at h
  rw [List.mem_filterMap] at h
  obtain ⟨m, hm, hsome⟩ := h
  split at hsome
  · exact Option.noConfusion hsome
  · rename_i h1
    split at hsome
    · exact Option.noConfusion hsome
    · rename_i h2
      split at hsome
      · exact Option.noConfusion hsome
      · injection hsome with hsome
        subst hsome
        simp only [Bool.and_eq_true, decide_eq_true_eq, not_and] at h1 h2
        refine ⟨m, hm, rfl, rfl, ?_, ?_⟩
        · intro hty
          exact h1 hty
        · intro hty
          exact Bool.not_eq_true _ ▸ (by simpa using h2 hty)

theorem redactPatterns_not_canonical {env : PatEnv} (hsh : PatEnvShape env)
    {it : Item} (h : it ∈ redactPatternsItems env) :
    notCanonicalDS it.original := by
  rw [redactPatternsItems_eq_spec] at h
  unfold redactPatternsSpecItems at h
  rw [List.mem_flatten] at h
  obtain ⟨l, hl, hit⟩ := h
  rw [List.mem_map] at hl
  obtain ⟨st, hst, hl2⟩ := hl
  subst hl2
  obtain ⟨m, hm, horig, _, hemail, hurl⟩ := mem_applyPatternItems hit
  obtain ⟨hdig, hat, hdot⟩ := hsh
  rw [horig]
  fin_cases hst <;>
    first
    | exact digit_notCanonical (hdig _ (by decide) _ m hm)
    | exact email_notCanonical (hat _ m hm) (hemail rfl)
    | exact url_notCanonical (hdot _ m hm) (hurl rfl)

theorem paranoid_not_canonical {env : ParanoidEnv}
    (hsh : ParanoidEnvShape env = true) {it : Item}
    (h : it ∈ paranoidItems env) : notCanonicalDS it.original := by
  unfold paranoidItems at h
  rw [List.mem_map] at h
  obtain ⟨p, hp, hpe⟩ := h
  subst hpe
  unfold paranoidItemsWithNames at hp
  simp only [List.mem_append, List.mem_filterMap] at hp
  rcases hp with ((((((⟨q, hq, hs⟩ | ⟨q, hq, hs⟩) | ⟨q, hq, hs⟩)
    | ⟨q, hq, hs⟩) | ⟨q, hq, hs⟩) | ⟨q, hq, hs⟩) | ⟨q, hq, hs⟩)
  · obtain ⟨_, h2, _, h4, _⟩ := greetingItem_gates hs
    exact h4 ▸ notCanonical_of_not_isDS h2
  · obtain ⟨_, h2, _, h4, _⟩ := signatureItem_gates hs
    exact h4 ▸ notCanonical_of_not_isDS h2
  · obtain ⟨_, h2, _, h4, _⟩ := parensItem_gates hs
    exact h4 ▸ notCanonical_of_not_isDS h2
  · obtain ⟨_, _, h3, _⟩ := titledItem_gates hs
    rw [h3]
    apply titled_notCanonical
    unfold ParanoidEnvShape at hsh
    rw [List.all_eq_true] at hsh
    have h5 := hsh q hq
    simpa using h5
  · obtain ⟨_, h2, h3, _⟩ := labeledItem_gates hs
    exact h3 ▸ notCanonical_of_not_isDS h2
  · obtain ⟨_, h2, _, h4, _⟩ := standaloneItem_gates hs
    exact h4 ▸ notCanonical_of_not_isDS h2
  · obtain ⟨_, h2, _, h4, _⟩ := lineStartItem_gates hs
    exact h4 ▸ notCanonical_of_not_isDS h2

theorem applyAI_not_ds (tenv : AISubstEnv) (text : String)
    (items : List AIItem) :
    ∀ it ∈ (applyAIRedactions tenv text items).2,
      isDataSubject it.original = false := by
  unfold applyAIRedactions
  split
  · intro it h
    simp at h
  · have hfold : ∀ (l : List AIItem) (acc : String × List Item),
        (∀ it ∈ acc.2, isDataSubject it.original = false) →
        ∀ it ∈ (l.foldl (aiStep tenv) acc).2,
          isDataSubject it.original = false := by
      intro l
      induction l with
      | nil => intro acc hacc it h; exact hacc it h
      | cons x xs ih =>
        intro acc hacc
        refine ih _ ?_
        intro it h
        simp only [aiStep] at h
        split at h
        · exact hacc it h
        · split at h
          · exact hacc it h
          · split at h
            · exact hacc it h
            · split at h
              · exact hacc it h
              · rename_i hds _ _
                split at h
                · rcases List.mem_append.mp h with h | h
                  · exact hacc it h
                  · simp at h
                    subst h
                    simpa using hds
                · exact hacc it h
    intro it h
    exact hfold _ _ (by intro it h2; simp at h2) it h

/-- C1: no redaction stage substitutes the data subject's canonical name
"John Gaskell" or canonical email "john@freightlink.co.uk": in the
structured-field stage, the deterministic pattern stage (under the
structural facts about what its regexes can match), the paranoid pass
(under the fact that the title group only captures title words) and the AI
application stage, every emitted redaction item's original differs
(case-insensitively) from the canonical name and from the canonical email -
including data-subject entries co-occurring with third parties in a
recipient list, which are kept/normalized rather than replaced. -/
theorem c1_data_subject_never_replaced :
    (∀ s : Sender, ∀ it ∈ (redactSender s).2, notCanonicalDS it.original) ∧
    (∀ r : Recipients, ∀ it ∈ (redactRecipients r).2,
      notCanonicalDS it.original) ∧
    (∀ env : PatEnv, PatEnvShape env →
      ∀ it ∈ redactPatternsItems env, notCanonicalDS it.original) ∧
    (∀ penv : ParanoidEnv, ParanoidEnvShape penv = true →
      ∀ it ∈ paranoidItems penv, notCanonicalDS it.original) ∧
    (∀ (tenv : AISubstEnv) (text : String) (items : List AIItem),
      ∀ it ∈ (applyAIRedactions tenv text items).2,
        notCanonicalDS it.original) ∧
    (∀ fieldName part : String,
      (isDataSubject part || containsDataSubject part) = true →
        (recipientStep fieldName part).1 ≠ "[REDACTED]"
        ∧ (recipientStep fieldName part).2 = []) := by
  refine ⟨?_, ?_, ?_, ?_, ?_, ?_⟩
  · intro s it h
    exact notCanonical_of_not_isDS (redactSender_not_ds h)
  · intro r it h
    exact notCanonical_of_not_isDS (redactRecipients_not_ds h)
  · intro env hsh it h
    exact redactPatterns_not_canonical hsh h
  · intro penv hsh it h
    exact paranoid_not_canonical hsh h
  · intro tenv text items it h
    exact notCanonical_of_not_isDS (applyAI_not_ds tenv text items it h)
  · intro fieldName part hds
    unfold recipientStep
    rw [if_pos hds]
    refine ⟨?_, rfl⟩
    unfold classifyDSPart
    split
    · decide
    · split
      · decide
      · decide

/-- C1 witness. -/
theorem c1_witness :
    notCanonicalDS "Sarah Smith" ∧
    (recipientStep "to" "John Gaskell <john@freightlink.co.uk>").1
      ≠ "[REDACTED]" ∧
    notCanonicalDS "07527 176522" := by
  have h := c1_data_subject_never_replaced
  refine ⟨?_, ?_, ?_⟩
  · exact h.1 ⟨"Sarah Smith", "sarah@acme.com"⟩
      ⟨"Sarah Smith", "sender_name", "[REDACTED]", "", ""⟩ (by decide)
  · exact (h.2.2.2.2.2 "to" "John Gaskell <john@freightlink.co.uk>"
      (by decide)).1
  · refine h.2.2.1 envPhone ?_
      ⟨"07527 176522", "phone", "[REDACTED PHONE]", "", ""⟩ (by decide)
    refine ⟨?_, ?_, ?_⟩
    · intro k _ i m hm
      unfold envPhone at hm
      split at hm
      · simp at hm
        subst hm
        decide
      · simp at hm
    · intro i m hm
      unfold envPhone at hm
      split at hm
      · rename_i hc
        exact absurd hc.1 (by decide)
      · simp at hm
    · intro i m hm
      unfold envPhone at hm
      split at hm
      · rename_i hc
        exact absurd hc.1 (by decide)
      · simp at hm

/-! ## C8: retry with linear backoff, degradation instead of loss -/

theorem callOpenAI_all_fail (oracle : Nat → Option (List AIResult))
    (h : ∀ k, oracle k = none) :
    ∀ n rc, MAX_RETRIES - rc = n →
      callOpenAI oracle rc
        = ((List.range n).map (fun k => RETRY_DELAY_MS * (rc + k + 1)),
           []) := by
  have hM : MAX_RETRIES = 3 := rfl
  intro n
  induction n with
  | zero =>
    intro rc hrc
    rw [callOpenAI, h rc]
    simp only [dif_neg (show ¬ rc < MAX_RETRIES by omega)]
    simp
  | succ n ih =>
    intro rc hrc
    rw [callOpenAI, h rc]
    simp only [dif_pos (show rc < MAX_RETRIES by omega)]
    rw [ih (rc + 1) (by omega)]
    refine Prod.ext ?_ rfl
    show RETRY_DELAY_MS * (rc + 1)
        :: (List.range n).map (fun k => RETRY_DELAY_MS * (rc + 1 + k + 1))
      = (List.range (n + 1)).map (fun k => RETRY_DELAY_MS * (rc + k + 1))
    rw [List.range_succ_eq_map, List.map_cons, List.map_map]
    congr 1
    apply List.map_congr_left
    intro k _
    simp only [Function.comp_apply]
    have hD : RETRY_DELAY_MS = 2000 := rfl
    rw [hD]
    omega

theorem lastAssocAI_nil (mid : Int) : lastAssocAI [] mid = [] := rfl

theorem aiApplyStep_no_results (tenv : AISubstEnv) :
    ∀ (l : List Msg) (accL : List Msg) (accA : List (Int × List Item)),
      l.foldl (aiApplyStep tenv []) (accL, accA) = (accL ++ l, accA) := by
  intro l
  induction l with
  | nil => intro accL accA; simp
  | cons m rest ih =>
    intro accL accA
    have hstep : aiApplyStep tenv [] (accL, accA) m = (accL ++ [m], accA) := by
      simp [aiApplyStep, lastAssocAI]
    rw [List.foldl_cons, hstep, ih]
    simp

/-- C8: when every attempt of the AI call fails, the call sleeps the
linearly increasing delays RETRY_DELAY_MS * (attempt + 1) for each of the
MAX_RETRIES retries and then returns zero detections; the batch is not
discarded - processBatch still returns every message, with the
deterministic and heuristic redactions of processMessage applied, and the
audit contains exactly the deterministic-stage entries. -/
theorem c8_retry_and_degrade (env : TextEnv) (tenv : AISubstEnv)
    (oracle : Nat → Option (List AIResult)) (msgs : List Msg)
    (h : ∀ k, oracle k = none) :
    (callOpenAI oracle 0).1
      = (List.range MAX_RETRIES).map (fun k => RETRY_DELAY_MS * (k + 1)) ∧
    (callOpenAI oracle 0).2 = [] ∧
    (processBatch env tenv oracle msgs).1
      = msgs.map (fun m => (processMessage env m).1) ∧
    (processBatch env tenv oracle msgs).2 = detOnlyAudit env msgs := by
  have hc := callOpenAI_all_fail oracle h MAX_RETRIES 0 (by omega)
  have h1 : (callOpenAI oracle 0).1
      = (List.range MAX_RETRIES).map (fun k => RETRY_DELAY_MS * (k + 1)) := by
    rw [hc]
    simp
  have h2 : (callOpenAI oracle 0).2 = [] := by rw [hc]
  refine ⟨h1, h2, ?_, ?_⟩
  · unfold processBatch
    rw [h2, aiApplyStep_no_results]
    simp [List.map_map]
  · unfold processBatch
    rw [h2, aiApplyStep_no_results]
    simp only []
    unfold detOnlyAudit
    rw [List.filterMap_map]
    rfl

/-- C8 witness. -/
theorem c8_witness :
    (callOpenAI (fun _ => none) 0).1 = [2000, 4000, 6000] ∧
    (processBatch trivialTextEnv trivialAIEnv (fun _ => none)
        [msgWithAttachments]).1
      = [(processMessage trivialTextEnv msgWithAttachments).1] := by
  have h := c8_retry_and_degrade trivialTextEnv trivialAIEnv (fun _ => none)
    [msgWithAttachments] (fun _ => rfl)
  constructor
  · rw [h.1]
    decide
  · rw [h.2.2.1]
    rfl

/-! ## C2: checkpoint resume under out-of-order batch completion -/

theorem chunkAux_flatten (bs : Nat) (hbs : 0 < bs) :
    ∀ (fuel : Nat) (l : List Msg), l.length ≤ fuel →
      (chunkAux bs fuel l).flatten = l := by
  intro fuel
  induction fuel with
  | zero =>
    intro l hl
    have hnil : l = [] := List.eq_nil_of_length_eq_zero (Nat.le_zero.mp hl)
    subst hnil
    rfl
  | succ fuel ih =>
    intro l hl
    cases l with
    | nil => rfl
    | cons x xs =>
      show (List.take bs (x :: xs)
          :: chunkAux bs fuel (List.drop bs (x :: xs))).flatten = x :: xs
      rw [List.flatten_cons, ih _ ?_]
      · exact List.take_append_drop bs (x :: xs)
      · rw [List.length_drop]
        simp only [List.length_cons] at hl ⊢
        omega

theorem makeBatches_flatten (bs : Nat) (hbs : 0 < bs) (l : List Msg) :
    (makeBatches bs l).flatten = l :=
  chunkAux_flatten bs hbs l.length l (Nat.le_refl _)

theorem processMessage_id (env : TextEnv) (m : Msg) :
    (processMessage env m).1.id = m.id := rfl

theorem aiApplyStep_fst_map_id (tenv : AISubstEnv) (results : List AIResult)
    (acc : List Msg × List (Int × List Item)) (m : Msg) :
    ((aiApplyStep tenv results acc m).1).map Msg.id
      = acc.1.map Msg.id ++ [m.id] := by
  unfold aiApplyStep
  simp

theorem foldl_aiApplyStep_map_id (tenv : AISubstEnv)
    (results : List AIResult) :
    ∀ (l : List Msg) (acc : List Msg × List (Int × List Item)),
      ((l.foldl (aiApplyStep tenv results) acc).1).map Msg.id
        = acc.1.map Msg.id ++ l.map Msg.id := by
  intro l
  induction l with
  | nil => intro acc; simp
  | cons m rest ih =>
    intro acc
    rw [List.foldl_cons, ih, aiApplyStep_fst_map_id]
    simp

theorem processBatch_map_id (env : TextEnv) (tenv : AISubstEnv)
    (oracle : Nat → Option (List AIResult)) (msgs : List Msg) :
    ((processBatch env tenv oracle msgs).1).map Msg.id = msgs.map Msg.id := by
  unfold processBatch
  rw [foldl_aiApplyStep_map_id]
  simp only [List.map_nil, List.nil_append, List.map_map]
  apply List.map_congr_left
  intro m _
  rfl

theorem processBatch_length (env : TextEnv) (tenv : AISubstEnv)
    (oracle : Nat → Option (List AIResult)) (msgs : List Msg) :
    (processBatch env tenv oracle msgs).1.length = msgs.length := by
  have h := congrArg List.length (processBatch_map_id env tenv oracle msgs)
  simpa using h

theorem runSchedule_messages (completions :
    List (List Msg × List (Int × List Item))) :
    ∀ cp : Checkpoint,
      (runSchedule cp completions).redactedMessages
        = cp.redactedMessages ++ (completions.map Prod.fst).flatten := by
  induction completions with
  | nil => intro cp; simp [runSchedule]
  | cons c rest ih =>
    intro cp
    show (runSchedule (applyCompletion cp c) rest).redactedMessages = _
    rw [ih]
    unfold applyCompletion
    simp

theorem runSchedule_count (completions :
    List (List Msg × List (Int × List Item))) :
    ∀ cp : Checkpoint,
      (runSchedule cp completions).processedCount
        = cp.processedCount + (completions.map (fun c => c.1.length)).sum := by
  induction completions with
  | nil => intro cp; simp [runSchedule]
  | cons c rest ih =>
    intro cp
    show (runSchedule (applyCompletion cp c) rest).processedCount = _
    rw [ih]
    unfold applyCompletion
    simp
    omega

/-- C2: starting from a checkpoint with processedCount = N < T over an
input of T messages with distinct ids and a checkpoint carrying exactly the
first N messages (by id), only the messages at index at least N are
batched; and for every completion order of the batches (any permutation of
the batch results, as produced by the concurrent workers), the final
checkpoint holds T messages whose ids are exactly the input ids - no
duplicates and no gaps - and processedCount = T. -/
theorem c2_checkpoint_resume (env : TextEnv) (tenv : AISubstEnv)
    (oracle : Nat → Option (List AIResult)) (input : List Msg)
    (cp : Checkpoint) (bs : Nat) (hbs : 0 < bs)
    (completions : List (List Msg × List (Int × List Item)))
    (hcp : cp.redactedMessages.map Msg.id
      = (input.take cp.processedCount).map Msg.id)
    (hN : cp.processedCount < input.length)
    (hnodup : (input.map Msg.id).Nodup)
    (hsched : completions.Perm
      ((makeBatches bs (input.drop cp.processedCount)).map
        (processBatch env tenv oracle))) :
    ((makeBatches bs (input.drop cp.processedCount)).flatten
        = input.drop cp.processedCount) ∧
    ((runSchedule cp completions).redactedMessages.map Msg.id).Perm
      (input.map Msg.id) ∧
    (runSchedule cp completions).redactedMessages.length = input.length ∧
    ((runSchedule cp completions).redactedMessages.map Msg.id).Nodup ∧
    (runSchedule cp completions).processedCount = input.length := by
  have hflat := makeBatches_flatten bs hbs (input.drop cp.processedCount)
  have hperm1 : ((completions.map Prod.fst).flatten).map Msg.id
      = (completions.map (fun c => c.1.map Msg.id)).flatten := by
    rw [List.map_flatten, List.map_map]
    rfl
  have hperm : (((runSchedule cp completions).redactedMessages).map
      Msg.id).Perm (input.map Msg.id) := by
    rw [runSchedule_messages, List.map_append]
    have hstep1 : (completions.map (fun c => c.1.map Msg.id)).Perm
        (((makeBatches bs (input.drop cp.processedCount)).map
          (processBatch env tenv oracle)).map (fun c => c.1.map Msg.id)) :=
      hsched.map _
    have hstep2 : ((makeBatches bs (input.drop cp.processedCount)).map
          (processBatch env tenv oracle)).map (fun c => c.1.map Msg.id)
        = (makeBatches bs (input.drop cp.processedCount)).map
            (fun b => b.map Msg.id) := by
      rw [List.map_map]
      apply List.map_congr_left
      intro b _
      exact processBatch_map_id env tenv oracle b
    have hstep3 : ((makeBatches bs (input.drop cp.processedCount)).map
          (fun b => b.map Msg.id)).flatten
        = (input.drop cp.processedCount).map Msg.id := by
      rw [← List.map_flatten, hflat]
    have hflatperm : (((completions.map Prod.fst).flatten).map Msg.id).Perm
        ((input.drop cp.processedCount).map Msg.id) := by
      rw [hperm1, ← hstep3, ← hstep2]
      exact hstep1.flatten
    rw [hcp]
    have h9 := hflatperm.append_left
      ((input.take cp.processedCount).map Msg.id)
    have h10 : (input.take cp.processedCount).map Msg.id
        ++ (input.drop cp.processedCount).map Msg.id = input.map Msg.id := by
      rw [← List.map_append, List.take_append_drop]
    exact h10 ▸ h9
  refine ⟨hflat, hperm, ?_, hnodup.perm hperm.symm, ?_⟩
  · have hlen := hperm.length_eq
    simpa using hlen
  · rw [runSchedule_count]
    have hsum : (completions.map (fun c => c.1.length)).sum
        = input.length - cp.processedCount := by
      have hs1 : (completions.map (fun c => c.1.length)).sum
          = (((makeBatches bs (input.drop cp.processedCount)).map
              (processBatch env tenv oracle)).map
                (fun c => c.1.length)).sum :=
        (hsched.map (fun c => c.1.length)).sum_eq
      rw [hs1, List.map_map]
      have hs2 : ((makeBatches bs (input.drop cp.processedCount)).map
            ((fun c => c.1.length) ∘ processBatch env tenv oracle))
          = (makeBatches bs (input.drop cp.processedCount)).map
              List.length := by
        apply List.map_congr_left
        intro b _
        exact processBatch_length env tenv oracle b
      rw [hs2, ← List.length_flatten, hflat, List.length_drop]
    rw [hsum]
    have hcount : cp.redactedMessages.length
        = (input.take cp.processedCount).length := by
      have := congrArg List.length hcp
      simpa using this
    omega

/-- C2 witness. -/
theorem c2_checkpoint_resume_witness :
    (runSchedule ⟨1, [msgWithAttachments], [], ""⟩
      ((makeBatches 1 ([msgWithAttachments, msgWithQuotedReply].drop 1)).map
        (processBatch trivialTextEnv trivialAIEnv (fun _ => none)))
      ).redactedMessages.length = 2 ∧
    (runSchedule ⟨1, [msgWithAttachments], [], ""⟩
      ((makeBatches 1 ([msgWithAttachments, msgWithQuotedReply].drop 1)).map
        (processBatch trivialTextEnv trivialAIEnv (fun _ => none)))
      ).processedCount = 2 := by
  have h := c2_checkpoint_resume trivialTextEnv trivialAIEnv (fun _ => none)
    [msgWithAttachments, msgWithQuotedReply] ⟨1, [msgWithAttachments], [], ""⟩
    1 (by decide) _ (by decide) (by decide) (by decide) (List.Perm.refl _)
  exact ⟨h.2.2.1, h.2.2.2.2⟩

/-! ## C9: at most one holder of the checkpoint mutex -/

/-- Invariant of the mutex protocol: at most one worker is in its critical
section, and none is when the flag is clear. -/
def MutexInv {n : Nat} (s : MutexState n) : Prop :=
  (∀ w v, isCritical s w → isCritical s v → w = v) ∧
  (s.locked = false → ∀ w, ¬ isCritical s w)

theorem initState_inv (n : Nat) (iters : Fin n → Nat) :
    MutexInv (initState n iters) := by
  constructor
  · intro w v hw _
    obtain ⟨k, hk⟩ := hw
    simp [initState] at hk
  · intro _ w hw
    obtain ⟨k, hk⟩ := hw
    simp [initState] at hk

theorem mstep_inv {n : Nat} {s t : MutexState n} {e : MEvent n}
    (hst : MStep s e t) (hinv : MutexInv s) : MutexInv t := by
  obtain ⟨hex, hfree⟩ := hinv
  cases hst with
  | acquireFree w k hw hl =>
    constructor
    · intro a b ha hb
      obtain ⟨ka, hka⟩ := ha
      obtain ⟨kb, hkb⟩ := hb
      simp only [Function.update_apply] at hka hkb
      by_cases haw : a = w
      · by_cases hbw : b = w
        · rw [haw, hbw]
        · rw [if_neg hbw] at hkb
          exact absurd ⟨kb, hkb⟩ (hfree hl b)
      · rw [if_neg haw] at hka
        exact absurd ⟨ka, hka⟩ (hfree hl a)
    · intro hl2
      exact absurd hl2 (by simp)
  | acquireBusy w k hw hl =>
    constructor
    · intro a b ha hb
      obtain ⟨ka, hka⟩ := ha
      obtain ⟨kb, hkb⟩ := hb
      simp only [Function.update_apply] at hka hkb
      by_cases haw : a = w
      · rw [if_pos haw] at hka
        exact absurd hka (by simp)
      · by_cases hbw : b = w
        · rw [if_pos hbw] at hkb
          exact absurd hkb (by simp)
        · rw [if_neg haw] at hka
          rw [if_neg hbw] at hkb
          exact hex a b ⟨ka, hka⟩ ⟨kb, hkb⟩
    · intro hl2
      exact absurd hl2 (by simp)
  | writeStep w k hw => exact ⟨hex, hfree⟩
  | releaseEmpty w k hw hq =>
    have hnone : ∀ a : Fin n,
        ¬ isCritical ⟨false, [], Function.update s.phase w (.ready k)⟩ a := by
      intro a ha
      obtain ⟨ka, hka⟩ := ha
      simp only [Function.update_apply] at hka
      by_cases haw : a = w
      · rw [if_pos haw] at hka
        exact absurd hka (by simp)
      · rw [if_neg haw] at hka
        exact haw (hex a w ⟨ka, hka⟩ ⟨k, hw⟩)
    exact ⟨fun a b ha _ => absurd ha (hnone a), fun _ => hnone⟩
  | releaseHandoff w v k j rest hw hq hv =>
    have hvw : v ≠ w := by
      intro hvw
      rw [hvw, hw] at hv
      exact WPhase.noConfusion hv
    constructor
    · intro a b ha hb
      have hcrit : ∀ c : Fin n,
          isCritical ⟨true, rest,
            Function.update (Function.update s.phase w (.ready k)) v
              (.critical j)⟩ c → c = v := by
        intro c hc
        obtain ⟨kc, hkc⟩ := hc
        simp only [Function.update_apply] at hkc
        by_cases hcv : c = v
        · exact hcv
        · rw [if_neg hcv] at hkc
          by_cases hcw : c = w
          · rw [if_pos hcw] at hkc
            exact absurd hkc (by simp)
          · rw [if_neg hcw] at hkc
            exact absurd (hex c w ⟨kc, hkc⟩ ⟨k, hw⟩) hcw
      rw [hcrit a ha, hcrit b hb]
    · intro hl2
      exact absurd hl2 (by simp)

theorem mreachable_inv {n : Nat} {iters : Fin n → Nat} {s : MutexState n}
    (h : MReachable (initState n iters) s) : MutexInv s := by
  induction h with
  | refl => exact initState_inv n iters
  | step _ hst ih => exact mstep_inv hst ih

/-- C9: in every state reachable by the mutex protocol from the initial
state, at most one worker holds the mutex, and every write event (the
checkpoint appends and the checkpoint file write of processNext, performed
between acquire and the unconditional release of the finally block on the
success and the error path alike) is performed by a worker that holds the
mutex exclusively - so two workers never interleave checkpoint writes. -/
theorem c9_mutex_exclusion {n : Nat} (iters : Fin n → Nat)
    (s : MutexState n) (h : MReachable (initState n iters) s) :
    (∀ w v, isCritical s w → isCritical s v → w = v) ∧
    (∀ (w : Fin n) (t : MutexState n), MStep s (MEvent.write w) t →
      isCritical s w ∧ ∀ v, isCritical s v → v = w) := by
  have hinv := mreachable_inv h
  refine ⟨hinv.1, ?_⟩
  intro w t hst
  cases hst with
  | writeStep w2 k hw =>
    exact ⟨⟨k, hw⟩, fun v hv => hinv.1 v w hv ⟨k, hw⟩⟩

/-- C9 witness. -/
theorem c9_mutex_exclusion_witness :
    isCritical (⟨true, [], Function.update (fun _ => WPhase.ready 1) 0
      (WPhase.critical 0)⟩ : MutexState 2) 0 ∧ (0 : Fin 2) = 0 := by
  have h := @c9_mutex_exclusion 2 (fun _ => 1) _
    (MReachable.step MReachable.refl
      (MStep.acquireFree (initState 2 (fun _ => 1)) 0 0 rfl rfl))
  exact ⟨⟨0, rfl⟩, h.1 0 0 ⟨0, rfl⟩ ⟨0, rfl⟩⟩

end Dsarify
